import Mathlib

/-!
Verification development for the perplexity-web-api client crate.

The Rust sources are shallowly embedded as executable Lean definitions:

* `parse.rs` — the event content extractor (`parseSseEvent` and helpers),
  working over a `JsonValue` model of `serde_json::Value` together with an
  executable JSON text parser `jsonParse` standing in for
  `serde_json::from_str`;
* `sse.rs` — the SSE frame decoder (`tryParseEvent`, `pollLoop`,
  `pollNext`, `drainFrom`), with byte streams modelled as lists of byte
  chunks and the async poll loop modelled as explicit state passing;
* `client.rs` / `config.rs` — request validation and wire payload assembly
  (`searchStream`, `model_preference`), with network legs recorded as an
  explicit trace of `NetCall`s and the upload pipeline abstracted as a
  function argument.

Bytes are modelled as natural numbers (the byte values), byte buffers as
`List Nat`.
-/

namespace PWA

/-- Model of `serde_json::Value`.  Numbers are kept exactly as a decimal
mantissa together with a power-of-ten exponent, which is enough for the
payload shapes this crate manipulates. -/
inductive JsonValue where
  | null : JsonValue
  | bool (b : Bool) : JsonValue
  | num (mantissa : Int) (exp10 : Int) : JsonValue
  | str (s : String) : JsonValue
  | arr (elems : List JsonValue) : JsonValue
  | obj (fields : List (String × JsonValue)) : JsonValue
deriving Inhabited

/-- Model of `serde_json::Map<String, Value>`: an insertion-ordered
association list. -/
abbrev JsonObj := List (String × JsonValue)

/-- Key lookup in a JSON object map (`Map::get`). -/
def mapGet : JsonObj → String → Option JsonValue
  | [], _ => none
  | (k', v') :: rest, k => if k' == k then some v' else mapGet rest k

/-- Key insertion in a JSON object map (`Map::insert`): replaces the value in
place when the key is present, otherwise appends. -/
def objInsert : JsonObj → String → JsonValue → JsonObj
  | [], k, v => [(k, v)]
  | (k', v') :: rest, k, v =>
    if k' == k then (k, v) :: rest else (k', v') :: objInsert rest k v

/-- Model of `Value::as_str`. -/
def JsonValue.asStr : JsonValue → Option String
  | .str s => some s
  | _ => none

/-- Model of `Value::as_array`. -/
def JsonValue.asArray : JsonValue → Option (List JsonValue)
  | .arr l => some l
  | _ => none

/-- Model of `Value::get` with a string key: object field lookup, `none` on
every other value shape. -/
def JsonValue.getKey : JsonValue → String → Option JsonValue
  | .obj m, k => mapGet m k
  | _, _ => none

/-! ### An executable JSON text parser, standing in for `serde_json::from_str` -/

def isWsChar (c : Char) : Bool :=
  c == ' ' || c == '\t' || c == '\n' || c == '\r'

def skipWs (cs : List Char) : List Char := cs.dropWhile isWsChar

def parseHexDigit (c : Char) : Option Nat :=
  if '0' ≤ c ∧ c ≤ '9' then some (c.toNat - 48)
  else if 'a' ≤ c ∧ c ≤ 'f' then some (c.toNat - 87)
  else if 'A' ≤ c ∧ c ≤ 'F' then some (c.toNat - 55)
  else none

/-- Parses the body of a JSON string literal after the opening quote.
Returns the decoded characters together with the input remaining after the
closing quote. -/
def parseStringBody : List Char → Option (List Char × List Char)
  | [] => none
  | c :: rest =>
    if c == '"' then some ([], rest)
    else if c == '\\' then
      match rest with
      | [] => none
      | e :: rest' =>
        if e == 'u' then
          match rest' with
          | h1 :: h2 :: h3 :: h4 :: rest'' =>
            match parseHexDigit h1, parseHexDigit h2, parseHexDigit h3, parseHexDigit h4 with
            | some d1, some d2, some d3, some d4 =>
              match parseStringBody rest'' with
              | some (content, r) =>
                some (Char.ofNat (d1 * 4096 + d2 * 256 + d3 * 16 + d4) :: content, r)
              | none => none
            | _, _, _, _ => none
          | _ => none
        else
          match
            (if e == '"' then some '"'
             else if e == '\\' then some '\\'
             else if e == '/' then some '/'
             else if e == 'b' then some (Char.ofNat 8)
             else if e == 'f' then some (Char.ofNat 12)
             else if e == 'n' then some '\n'
             else if e == 'r' then some '\r'
             else if e == 't' then some '\t'
             else none) with
          | some ec =>
            match parseStringBody rest' with
            | some (content, r) => some (ec :: content, r)
            | none => none
          | none => none
    else if c.toNat < 32 then none
    else
      match parseStringBody rest with
      | some (content, r) => some (c :: content, r)
      | none => none

def digitsToNat (ds : List Char) : Nat :=
  ds.foldl (fun a c => a * 10 + (c.toNat - 48)) 0

/-- Parses a JSON number. -/
def parseNumber (cs : List Char) : Option (JsonValue × List Char) :=
  let p : Bool × List Char :=
    match cs with
    | c :: rest => if c == '-' then (true, rest) else (false, cs)
    | [] => (false, [])
  let neg := p.1
  let cs1 := p.2
  let ip := cs1.span Char.isDigit
  let intDs := ip.1
  let cs2 := ip.2
  if intDs.isEmpty then none
  else
    let fracParsed : Option (List Char × List Char) :=
      match cs2 with
      | c :: rest =>
        if c == '.' then
          let fp := rest.span Char.isDigit
          if fp.1.isEmpty then none else some (fp.1, fp.2)
        else some ([], cs2)
      | [] => some ([], cs2)
    match fracParsed with
    | none => none
    | some (fracDs, cs3) =>
      let expParsed : Option (Int × List Char) :=
        match cs3 with
        | c :: rest =>
          if c == 'e' || c == 'E' then
            match rest with
            | s :: rest2 =>
              if s == '+' then
                let ep := rest2.span Char.isDigit
                if ep.1.isEmpty then none else some ((digitsToNat ep.1 : Int), ep.2)
              else if s == '-' then
                let ep := rest2.span Char.isDigit
                if ep.1.isEmpty then none else some (-(digitsToNat ep.1 : Int), ep.2)
              else
                let ep := rest.span Char.isDigit
                if ep.1.isEmpty then none else some ((digitsToNat ep.1 : Int), ep.2)
            | [] => none
          else some (0, cs3)
        | [] => some (0, cs3)
      match expParsed with
      | none => none
      | some (e, cs4) =>
        let mant : Int := (digitsToNat (intDs ++ fracDs) : Int)
        let mant := if neg then -mant else mant
        some (.num mant (e - (fracDs.length : Int)), cs4)

mutual

/-- Fuel-based recursive-descent JSON value parser. -/
def parseValue : Nat → List Char → Option (JsonValue × List Char)
  | 0, _ => none
  | fuel + 1, cs =>
    match skipWs cs with
    | [] => none
    | c :: rest =>
      if c == '"' then
        match parseStringBody rest with
        | some (content, r) => some (.str (String.mk content), r)
        | none => none
      else if c == Char.ofNat 123 then parseObjectFields fuel (skipWs rest) []
      else if c == '[' then parseArrayElems fuel (skipWs rest) []
      else if c == 't' then
        match rest with
        | 'r' :: 'u' :: 'e' :: r => some (.bool true, r)
        | _ => none
      else if c == 'f' then
        match rest with
        | 'a' :: 'l' :: 's' :: 'e' :: r => some (.bool false, r)
        | _ => none
      else if c == 'n' then
        match rest with
        | 'u' :: 'l' :: 'l' :: r => some (.null, r)
        | _ => none
      else parseNumber (c :: rest)

/-- Array elements after the opening bracket (whitespace already skipped). -/
def parseArrayElems : Nat → List Char → List JsonValue → Option (JsonValue × List Char)
  | 0, _, _ => none
  | fuel + 1, cs, acc =>
    match cs with
    | [] => none
    | c :: rest =>
      if c == ']' && acc.isEmpty then some (.arr [], rest)
      else
        match parseValue fuel (c :: rest) with
        | none => none
        | some (v, r) =>
          match skipWs r with
          | ',' :: r2 => parseArrayElems fuel (skipWs r2) (v :: acc)
          | ']' :: r2 => some (.arr (v :: acc).reverse, r2)
          | _ => none

/-- Object fields after the opening brace (whitespace already skipped). -/
def parseObjectFields : Nat → List Char → JsonObj → Option (JsonValue × List Char)
  | 0, _, _ => none
  | fuel + 1, cs, acc =>
    match cs with
    | [] => none
    | c :: rest =>
      if c == Char.ofNat 125 && acc.isEmpty then some (.obj [], rest)
      else if c == '"' then
        match parseStringBody rest with
        | none => none
        | some (keyChars, r1) =>
          match skipWs r1 with
          | ':' :: r2 =>
            match parseValue fuel (skipWs r2) with
            | none => none
            | some (v, r3) =>
              let acc' := objInsert acc (String.mk keyChars) v
              match skipWs r3 with
              | ',' :: r4 => parseObjectFields fuel (skipWs r4) acc'
              | c2 :: r4 =>
                if c2 == Char.ofNat 125 then some (.obj acc', r4) else none
              | [] => none
          | _ => none
      else none

end

/-- Model of `serde_json::from_str::<Value>`: parses a full document and
requires only whitespace to remain. -/
def jsonParse (s : String) : Option JsonValue :=
  match parseValue (4 * s.length + 16) s.toList with
  | some (v, rest) => if (skipWs rest).isEmpty then some v else none
  | none => none

/-! ### `error.rs` — the crate's error type

Transport (`rquest::Error`) and JSON (`serde_json::Error`) error payloads are
opaque to this crate's logic, so they are modelled without their messages
(transport errors keep an identifying number). -/

/-- Model of `error.rs`'s `Error` enum. -/
inductive Error where
  | http (e : Nat) : Error
  | json : Error
  | timeout : Error
  | fileUploadRequiresAuth : Error
  | invalidModelForMode (model : String) (mode : String) : Error
  | uploadUrlFailed (m : String) : Error
  | s3UploadFailed (m : String) : Error
  | missingSecureUrl : Error
  | invalidMimeType (m : String) : Error
  | invalidUtf8 : Error
  | server (status : Nat) (message : String) : Error
  | unexpectedEndOfStream : Error
deriving DecidableEq

/-! ### `types.rs` — event and response types -/

/-- Model of `types.rs`'s `SearchWebResult`. -/
structure SearchWebResult where
  name : String
  url : String
  snippet : String
deriving DecidableEq

/-- Model of `types.rs`'s `SearchEvent`.  The `raw` residual map
(`HashMap<String, Value>` in Rust) is modelled as an association list. -/
structure SearchEvent where
  answer : Option String
  web_results : List SearchWebResult
  backend_uuid : Option String
  attachments : List String
  raw : JsonObj

/-- Model of `types.rs`'s `FollowUpContext`. -/
structure FollowUpContext where
  backend_uuid : Option String
  attachments : List String
deriving DecidableEq

/-- Model of `SearchEvent::as_follow_up`. -/
def SearchEvent.as_follow_up (e : SearchEvent) : FollowUpContext :=
  ⟨e.backend_uuid, e.attachments⟩

/-! ### `parse.rs` — the event content extractor -/

/-- Keys that are extracted from the raw JSON and stored in dedicated fields
(`EXTRACTED_KEYS` in `parse.rs`). -/
def extractedKeys : List String := ["answer", "backend_uuid", "attachments"]

/-- Model of `parse.rs`'s `parse_nested_text_field`: if the "text" field is a
JSON string that parses, replace the field with the parsed value. -/
def parseNestedTextField (content : JsonObj) : JsonObj :=
  match mapGet content "text" with
  | none => content
  | some textValue =>
    match textValue.asStr with
    | none => content
    | some textStr =>
      match jsonParse textStr with
      | some parsed => objInsert content "text" parsed
      | none => content

/-- Predicate picking the FINAL step inside `extract_from_final_step`'s
`find` call. -/
def isFinalStep (step : JsonValue) : Bool :=
  (step.getKey "step_type").bind JsonValue.asStr == some "FINAL"

/-- Model of `parse.rs`'s `extract_web_result`: all three string fields are
required, otherwise the entry is dropped. -/
def extractWebResult (value : JsonValue) : Option SearchWebResult := do
  let name ← (value.getKey "name").bind JsonValue.asStr
  let url ← (value.getKey "url").bind JsonValue.asStr
  let snippet ← (value.getKey "snippet").bind JsonValue.asStr
  pure ⟨name, url, snippet⟩

/-- Model of `parse.rs`'s `extract_from_final_step`. -/
def extractFromFinalStep (content : JsonObj) :
    Option (Option String × List SearchWebResult) := do
  let text ← mapGet content "text"
  let steps ← text.asArray
  let finalStep ← steps.find? isFinalStep
  let stepContent ← finalStep.getKey "content"
  let answerStr ← (stepContent.getKey "answer").bind JsonValue.asStr
  let answerData ← jsonParse answerStr
  let answer := (answerData.getKey "answer").bind JsonValue.asStr
  let webResults :=
    (((answerData.getKey "web_results").bind JsonValue.asArray).getD []).filterMap
      extractWebResult
  pure (answer, webResults)

/-- Model of `parse.rs`'s `extract_answer_and_web_results`: FINAL-step path
first, then fallback to the top-level "answer" field with no web results. -/
def extractAnswerAndWebResults (content : JsonObj) :
    Option String × List SearchWebResult :=
  match extractFromFinalStep content with
  | some r => r
  | none => ((mapGet content "answer").bind JsonValue.asStr, [])

/-- Model of `parse.rs`'s `extract_string`. -/
def extractString (content : JsonObj) (key : String) : Option String :=
  (mapGet content key).bind JsonValue.asStr

/-- Model of `parse.rs`'s `extract_string_array`. -/
def extractStringArray (content : JsonObj) (key : String) : List String :=
  (((mapGet content key).bind JsonValue.asArray).map
    (fun arr => arr.filterMap JsonValue.asStr)).getD []

/-- Model of `parse.rs`'s `build_raw_map`. -/
def buildRawMap (content : JsonObj) : JsonObj :=
  content.filter (fun p => !(extractedKeys.contains p.1))

/-- Model of `parse.rs`'s `parse_sse_event`.  `serde_json::from_str` into a
`Map<String, Value>` fails (the crate's `Error::Json`) exactly when the
payload is not a JSON object. -/
def parseSseEvent (jsonStr : String) : Except Error SearchEvent :=
  match jsonParse jsonStr with
  | some (.obj content) =>
    let content := parseNestedTextField content
    let aw := extractAnswerAndWebResults content
    let backendUuid := extractString content "backend_uuid"
    let attachments := extractStringArray content "attachments"
    let raw := buildRawMap content
    .ok ⟨aw.1, aw.2, backendUuid, attachments, raw⟩
  | _ => .error .json

/-! ### A JSON printer, used to build concrete nested payloads for tests -/

/-- JSON string-literal escaping for one character. -/
def jsonEscapeChar (c : Char) : String :=
  if c == '"' then "\\\""
  else if c == '\\' then "\\\\"
  else if c == '\n' then "\\n"
  else if c == '\r' then "\\r"
  else if c == '\t' then "\\t"
  else String.singleton c

/-- Encodes a string as a JSON string literal. -/
def jsonQuote (s : String) : String :=
  "\"" ++ String.join (s.toList.map jsonEscapeChar) ++ "\""

def commaJoin : List String → String
  | [] => ""
  | [x] => x
  | x :: xs => x ++ "," ++ commaJoin xs

/-- Fuel-bounded JSON printer (total and executable; the fuel bounds the
nesting depth, which is fixed for the concrete values built below). -/
def jsonEncodeF : Nat → JsonValue → String
  | 0, _ => ""
  | fuel + 1, v =>
    match v with
    | .null => "null"
    | .bool true => "true"
    | .bool false => "false"
    | .num m e => toString m ++ (if e == 0 then "" else "e" ++ toString e)
    | .str s => jsonQuote s
    | .arr l => "[" ++ commaJoin (l.map (jsonEncodeF fuel)) ++ "]"
    | .obj m =>
      String.singleton (Char.ofNat 123)
        ++ commaJoin (m.map (fun p => jsonQuote p.1 ++ ":" ++ jsonEncodeF fuel p.2))
        ++ String.singleton (Char.ofNat 125)

/-! ### Bytes and UTF-8 — modelling `std::str::from_utf8` -/

/-- Byte sequence of an ASCII string (used for the SSE wire constants and
concrete test streams). -/
def strBytes (s : String) : List Nat := s.toList.map Char.toNat

def isUtf8Cont (b : Nat) : Bool := 128 ≤ b && b < 192

/-- Strict UTF-8 decoding of a byte list into characters, as
`std::str::from_utf8` validates it (continuation ranges restricted to
exclude overlong encodings, surrogates and values above 0x10FFFF). -/
def utf8DecodeAux : List Nat → Option (List Char)
  | [] => some []
  | b :: rest =>
    if b < 128 then (utf8DecodeAux rest).map (fun cs => Char.ofNat b :: cs)
    else if b < 194 then none
    else if b < 224 then
      match rest with
      | b1 :: rest' =>
        if isUtf8Cont b1 then
          (utf8DecodeAux rest').map
            (fun cs => Char.ofNat ((b - 192) * 64 + (b1 - 128)) :: cs)
        else none
      | [] => none
    else if b < 240 then
      match rest with
      | b1 :: b2 :: rest' =>
        let lo := if b == 224 then 160 else 128
        let hi := if b == 237 then 160 else 192
        if lo ≤ b1 ∧ b1 < hi ∧ isUtf8Cont b2 = true then
          (utf8DecodeAux rest').map
            (fun cs =>
              Char.ofNat ((b - 224) * 4096 + (b1 - 128) * 64 + (b2 - 128)) :: cs)
        else none
      | _ => none
    else if b < 245 then
      match rest with
      | b1 :: b2 :: b3 :: rest' =>
        let lo := if b == 240 then 144 else 128
        let hi := if b == 244 then 144 else 192
        if lo ≤ b1 ∧ b1 < hi ∧ isUtf8Cont b2 = true ∧ isUtf8Cont b3 = true then
          (utf8DecodeAux rest').map
            (fun cs =>
              Char.ofNat
                ((b - 240) * 262144 + (b1 - 128) * 4096 + (b2 - 128) * 64 + (b3 - 128)) :: cs)
        else none
      | _ => none
    else none

/-- Model of `std::str::from_utf8` followed by `to_owned`. -/
def utf8Decode (bytes : List Nat) : Option String :=
  (utf8DecodeAux bytes).map String.mk

/-! ### `sse.rs` — the SSE frame decoder -/

/-- `EVENT_MESSAGE_PREFIX`: the marker line opening a content frame. -/
def eventMessageMarker : List Nat := strBytes "event: message\r\n"

/-- `EVENT_END_OF_STREAM_PREFIX`: the marker line opening a terminal frame. -/
def eventEndOfStreamMarker : List Nat := strBytes "event: end_of_stream\r\n"

/-- `DATA_PREFIX`. -/
def dataMarker : List Nat := strBytes "data: "

/-- `DELIMITER`: CR LF CR LF. -/
def delimiter : List Nat := strBytes "\r\n\r\n"

/-- Byte-list version of `starts_with`. -/
def startsWithBytes (l pat : List Nat) : Bool := l.take pat.length == pat

/-- Model of `memchr::memmem::find`: index of the first occurrence of `pat`
as a contiguous sublist of `l`. -/
def findSublist (pat : List Nat) : List Nat → Option Nat
  | [] => if startsWithBytes [] pat then some 0 else none
  | a :: t =>
    if startsWithBytes (a :: t) pat then some 0
    else (findSublist pat t).map (fun i => i + 1)

/-- Decoding of one content frame's `data: ` payload bytes: UTF-8 validation
followed by `parse_sse_event` (the tail of `try_parse_event`). -/
def framePayloadItem (jsonBytes : List Nat) : Except Error SearchEvent :=
  match utf8Decode jsonBytes with
  | some jsonStr => parseSseEvent jsonStr
  | none => .error .invalidUtf8

/-- The message-frame branch of `try_parse_event`: if the candidate starts
with the message marker and contains a `data: ` marker after it, the bytes
following that marker are the frame's payload; otherwise no frame. -/
def msgFrameItem (eventData : List Nat) : Option (Except Error SearchEvent) :=
  if startsWithBytes eventData eventMessageMarker then
    let afterEvent := eventData.drop eventMessageMarker.length
    match findSublist dataMarker afterEvent with
    | some dataStart =>
      some (framePayloadItem (afterEvent.drop (dataStart + dataMarker.length)))
    | none => none
  else none

/-- Model of `sse.rs`'s `try_parse_event`.  The Rust function mutates the
buffer and the finished flag through `&mut`; here it returns the parse
outcome together with the new buffer and flag. -/
def tryParseEvent (buffer : List Nat) (finished : Bool) :
    Option (Except Error SearchEvent) × List Nat × Bool :=
  match findSublist delimiter buffer with
  | some pos =>
    let rest := buffer.drop (pos + delimiter.length)
    let eventData := buffer.take pos
    if startsWithBytes eventData eventEndOfStreamMarker then (none, rest, true)
    else (msgFrameItem eventData, rest, finished)
  | none => (none, buffer, finished)

/-- One item of the upstream byte stream: an `Ok(Bytes)` chunk or an
`Err(rquest::Error)` (carrying an opaque identifier). -/
inductive ByteChunk where
  | ok (bytes : List Nat) : ByteChunk
  | err (e : Nat) : ByteChunk
deriving DecidableEq

/-- Decoder state: the accumulated `buffer` and the `finished` flag of
`SseStream`. -/
structure DecoderState where
  buffer : List Nat
  finished : Bool
deriving DecidableEq

/-- The body of `poll_next`'s loop, entered with `finished = false` (the
top-of-function check has already returned otherwise).  Each iteration first
runs `try_parse_event`; on `Some` it returns the event; otherwise, if the
terminal flag was just set it returns end-of-stream; otherwise it polls the
upstream.  An `Ok` chunk extends the buffer and loops; an `Err` is returned
as an item; upstream completion sets `finished`, and — per the Rust control
flow — performs exactly one more `try_parse_event` before the
`if finished` check ends the stream. -/
def pollLoopF : Nat → List Nat → List ByteChunk →
    Option (Except Error SearchEvent) × DecoderState × List ByteChunk
  | 0, buffer, chunks => (none, ⟨buffer, false⟩, chunks)
  | fuel + 1, buffer, chunks =>
    match tryParseEvent buffer false with
    | (some ev, buf', fin') => (some ev, ⟨buf', fin'⟩, chunks)
    | (none, buf', fin') =>
      if fin' then (none, ⟨buf', fin'⟩, chunks)
      else
        match chunks with
        | [] =>
          if buf'.isEmpty then (none, ⟨buf', true⟩, [])
          else
            match tryParseEvent buf' true with
            | (some ev, buf'', fin'') => (some ev, ⟨buf'', fin''⟩, [])
            | (none, buf'', fin'') => (none, ⟨buf'', fin''⟩, [])
        | .err e :: rest => (some (.error (.http e)), ⟨buf', fin'⟩, rest)
        | .ok c :: rest => pollLoopF fuel (buf' ++ c) rest

/-- The loop re-enters its parse step only after consuming one upstream
chunk, so `chunks.length + 1` fuel is exact; the wrapper ties the fuel to
the entry state. -/
def pollLoop (buffer : List Nat) (chunks : List ByteChunk) :
    Option (Except Error SearchEvent) × DecoderState × List ByteChunk :=
  pollLoopF (chunks.length + 1) buffer chunks

/-- Model of one `SseStream::poll_next` call: `none` means the stream has
ended (`Poll::Ready(None)`).  Upstream readiness is modelled as always
ready, so `Poll::Pending` does not arise. -/
def pollNext (st : DecoderState) (chunks : List ByteChunk) :
    Option (Except Error SearchEvent) × DecoderState × List ByteChunk :=
  if st.finished then (none, st, chunks) else pollLoop st.buffer chunks

/-- Payload size of one chunk. -/
def chunkBytes : ByteChunk → Nat
  | .ok c => c.length
  | .err _ => 0

/-- A termination measure for repeated polling: every `pollNext` that yields
an item strictly decreases it (`pollLoop_lt` below). -/
def streamMeasure (st : DecoderState) (chunks : List ByteChunk) : Nat :=
  st.buffer.length + (chunks.map chunkBytes).sum + chunks.length
    + (if st.finished then 0 else 1)

/-- Fuel-bounded repeated polling, collecting every stream item. -/
def drainAux : Nat → DecoderState → List ByteChunk → List (Except Error SearchEvent)
  | 0, _, _ => []
  | fuel + 1, st, chunks =>
    match pollNext st chunks with
    | (none, _, _) => []
    | (some it, st', chunks') => it :: drainAux fuel st' chunks'

/-- The full item sequence produced by polling an `SseStream` in state `st`
over the remaining upstream `chunks` until it ends.  `streamMeasure` fuel is
sufficient by `pollLoop_lt` (see `drainFrom_unfold`). -/
def drainFrom (st : DecoderState) (chunks : List ByteChunk) :
    List (Except Error SearchEvent) :=
  drainAux (streamMeasure st chunks) st chunks

/-- The item sequence of `SseStream::new(inner)` where `inner` yields the
given chunks and then completes. -/
def sseDrain (chunks : List ByteChunk) : List (Except Error SearchEvent) :=
  drainFrom ⟨[], false⟩ chunks

/-! #### Reference decoder and framing condition

`decodeBytesAux` is modelled from the spec: it decodes the fully
concatenated logical byte stream in a single pass — one frame candidate per
delimiter occurrence, stopping at a terminal marker — and is
chunking-independent by construction.  `wellFramedAux` states that every
frame candidate of the stream is either a well-formed message frame or a
terminal frame (i.e. no candidate is silently discarded). -/

/-- Modelled from the spec (§4.4 transition rule applied to the whole
logical stream): single-pass frame decoding of concatenated bytes.  The
fuel is bounded below by the byte count (each step consumes a delimiter). -/
def decodeBytesAux : Nat → List Nat → List (Except Error SearchEvent)
  | 0, _ => []
  | fuel + 1, bytes =>
    match findSublist delimiter bytes with
    | none => []
    | some pos =>
      let eventData := bytes.take pos
      let rest := bytes.drop (pos + delimiter.length)
      if startsWithBytes eventData eventEndOfStreamMarker then []
      else
        match msgFrameItem eventData with
        | some it => it :: decodeBytesAux fuel rest
        | none => decodeBytesAux fuel rest

/-- Modelled from the spec: no frame candidate of the byte stream (up to the
first terminal marker) falls into the "unrecognized framing, silently
discarded" case. -/
def wellFramedAux : Nat → List Nat → Bool
  | 0, _ => false
  | fuel + 1, bytes =>
    match findSublist delimiter bytes with
    | none => true
    | some pos =>
      let eventData := bytes.take pos
      let rest := bytes.drop (pos + delimiter.length)
      if startsWithBytes eventData eventEndOfStreamMarker then true
      else
        match msgFrameItem eventData with
        | some _ => wellFramedAux fuel rest
        | none => false

/-- Reference single-pass decoding of a whole logical byte stream. -/
def decodeBytes (bytes : List Nat) : List (Except Error SearchEvent) :=
  decodeBytesAux (bytes.length + 1) bytes

/-- Every frame candidate of the byte stream is recognized. -/
def wellFramed (bytes : List Nat) : Bool :=
  wellFramedAux (bytes.length + 1) bytes

/-- Concatenated payload of a chunk list (`Err` chunks carry no bytes). -/
def chunksJoin : List ByteChunk → List Nat
  | [] => []
  | .ok c :: rest => c ++ chunksJoin rest
  | .err _ :: rest => chunksJoin rest

/-- All chunks are `Ok` (a transport-error-free stream). -/
def allOk : List ByteChunk → Bool
  | [] => true
  | .ok _ :: rest => allOk rest
  | .err _ :: _ => false

/-! #### Suspension trace

`pollTrace` records, inside one `poll_next` call, the buffer contents at
each moment the decoder polls the upstream for more input — exactly the
points where it can suspend (`Poll::Pending`) awaiting further bytes.
`drainTraceAux` extends this over a whole drain. -/

/-- Fuel-based body of `pollTrace` (same recursion pattern as `pollLoopF`). -/
def pollTraceF : Nat → List Nat → List ByteChunk → List (List Nat)
  | 0, _, _ => []
  | fuel + 1, buffer, chunks =>
    match tryParseEvent buffer false with
    | (some _, _, _) => []
    | (none, buf', fin') =>
      if fin' then []
      else
        match chunks with
        | [] => [buf']
        | .err _ :: _ => [buf']
        | .ok c :: rest => buf' :: pollTraceF fuel (buf' ++ c) rest

/-- Buffers retained at each upstream poll inside one `poll_next` call
(entered with `finished = false`). -/
def pollTrace (buffer : List Nat) (chunks : List ByteChunk) : List (List Nat) :=
  pollTraceF (chunks.length + 1) buffer chunks

/-- Fuel-bounded suspension-point trace over a whole drain. -/
def drainTraceAux : Nat → DecoderState → List ByteChunk → List (List Nat)
  | 0, _, _ => []
  | fuel + 1, st, chunks =>
    if st.finished then []
    else
      let tr := pollTrace st.buffer chunks
      match pollLoop st.buffer chunks with
      | (none, _, _) => tr
      | (some _, st', chunks') => tr ++ drainTraceAux fuel st' chunks'

/-- All buffers retained at upstream-poll points over a whole drain. -/
def drainTrace (st : DecoderState) (chunks : List ByteChunk) : List (List Nat) :=
  drainTraceAux (streamMeasure st chunks) st chunks

/-! ### `types.rs` — request-side enumerations and the request builder -/

/-- Model of `SearchMode`. -/
inductive SearchMode where
  | auto | pro | reasoning | deepResearch
deriving DecidableEq

/-- `SearchMode::as_str` (also its `Display` implementation). -/
def SearchMode.asStr : SearchMode → String
  | .auto => "auto"
  | .pro => "pro"
  | .reasoning => "reasoning"
  | .deepResearch => "deep research"

/-- Model of `Source`. -/
inductive Source where
  | web | scholar | social
deriving DecidableEq

/-- `Source::as_str`. -/
def Source.asStr : Source → String
  | .web => "web"
  | .scholar => "scholar"
  | .social => "social"

/-- Model of `Model`. -/
inductive Model where
  | sonar | gpt52 | claude45Sonnet | grok41
  | gpt52Thinking | claude45SonnetThinking | gemini30Pro | kimiK2Thinking
  | grok41Reasoning
deriving DecidableEq

/-- `Model::as_str`. -/
def Model.asStr : Model → String
  | .sonar => "sonar"
  | .gpt52 => "gpt-5.2"
  | .claude45Sonnet => "claude-4.5-sonnet"
  | .grok41 => "grok-4.1"
  | .gpt52Thinking => "gpt-5.2-thinking"
  | .claude45SonnetThinking => "claude-4.5-sonnet-thinking"
  | .gemini30Pro => "gemini-3.0-pro"
  | .kimiK2Thinking => "kimi-k2-thinking"
  | .grok41Reasoning => "grok-4.1-reasoning"

/-- Model of `UploadFile` (payload bytes as `List Nat`). -/
inductive UploadFile where
  | binary (filename : String) (data : List Nat) : UploadFile
  | text (filename : String) (content : String) : UploadFile
deriving DecidableEq

/-- `UploadFile::filename`. -/
def UploadFile.filename : UploadFile → String
  | .binary f _ => f
  | .text f _ => f

/-- Model of `SearchRequest` (all fields are public in Rust, so any value of
this structure is caller-constructible). -/
structure SearchRequest where
  query : String
  mode : SearchMode
  model : Option Model
  sources : List Source
  files : List UploadFile
  language : String
  follow_up : Option FollowUpContext
  incognito : Bool

/-- Model of `SearchRequest::new`. -/
def SearchRequest.new (query : String) : SearchRequest :=
  ⟨query, .auto, none, [.web], [], "en-US", none, false⟩

/-! ### `config.rs` — constants and the model registry -/

def API_VERSION : String := "2.18"

/-- Model of `config.rs`'s `model_preference` lookup table over the wire
strings (the client bridges its enums through `as_str`). -/
def model_preference (mode : String) (model : Option String) : Option String :=
  match mode, model with
  | "auto", none => some "turbo"
  | "pro", none => some "pplx_pro"
  | "pro", some "sonar" => some "experimental"
  | "pro", some "gpt-5.2" => some "gpt52"
  | "pro", some "claude-4.5-sonnet" => some "claude45sonnet"
  | "pro", some "grok-4.1" => some "grok41nonreasoning"
  | "reasoning", none => some "pplx_reasoning"
  | "reasoning", some "gpt-5.2-thinking" => some "gpt52_thinking"
  | "reasoning", some "claude-4.5-sonnet-thinking" => some "claude45sonnetthinking"
  | "reasoning", some "gemini-3.0-pro" => some "gemini30pro"
  | "reasoning", some "kimi-k2-thinking" => some "kimik2thinking"
  | "reasoning", some "grok-4.1-reasoning" => some "grok41reasoning"
  | "deep research", none => some "pplx_alpha"
  | _, _ => none

/-! ### `client.rs` — wire payload assembly, validation and `search` -/

/-- Model of `types.rs`'s `AskParams`. -/
structure AskParams where
  attachments : List String
  frontend_context_uuid : String
  frontend_uuid : String
  is_incognito : Bool
  language : String
  last_backend_uuid : Option String
  mode : String
  model_preference : String
  source : String
  sources : List String
  version : String
deriving DecidableEq

/-- Model of `types.rs`'s `AskPayload`. -/
structure AskPayload where
  query_str : String
  params : AskParams
deriving DecidableEq

/-- One network leg performed by `search_stream`: a file-upload leg or the
main-query HTTP POST. -/
inductive NetCall where
  | upload (filename : String) : NetCall
  | askRequest (payload : AskPayload) : NetCall
deriving DecidableEq

/-- `true` iff the call is not the main-query POST. -/
def NetCall.notAsk : NetCall → Bool
  | .upload _ => true
  | .askRequest _ => false

/-- Model of `Client::validate_request`: the only runtime validation is that
file uploads require authentication cookies. -/
def validateRequest (has_cookies : Bool) (request : SearchRequest) :
    Except Error Unit :=
  if !request.files.isEmpty && !has_cookies then .error .fileUploadRequiresAuth
  else .ok ()

/-- The sequential upload loop of `search_stream`.  The upload pipeline
itself (`upload.rs`) is a network collaborator, abstracted as the function
`upload`; the trace records one `NetCall.upload` per attempted leg, and the
loop aborts on the first failure. -/
def uploadFiles (upload : UploadFile → Except Error String) :
    List UploadFile → List NetCall × Except Error (List String)
  | [] => ([], .ok [])
  | f :: rest =>
    match upload f with
    | .error e => ([.upload f.filename], .error e)
    | .ok url =>
      let r := uploadFiles upload rest
      (.upload f.filename :: r.1, r.2.map (fun urls => url :: urls))

/-- Model of `Client::search_stream` up to the point where the SSE byte
stream is handed back: validation, sequential uploads, follow-up attachment
merging, mode bucketing, model resolution and payload assembly.  Returns
the ordered trace of network legs performed together with either the error
raised or the payload POSTed to open the stream (the POST itself is the
final `NetCall.askRequest` of the trace).  The two fresh random UUIDs are
passed in as parameters. -/
def searchStream (has_cookies : Bool) (upload : UploadFile → Except Error String)
    (frontendContextUuid frontendUuid : String) (request : SearchRequest) :
    List NetCall × Except Error AskPayload :=
  match validateRequest has_cookies request with
  | .error e => ([], .error e)
  | .ok _ =>
    match uploadFiles upload request.files with
    | (uploadCalls, .error e) => (uploadCalls, .error e)
    | (uploadCalls, .ok urls) =>
      let attachments := urls ++
        (match request.follow_up with
         | some f => f.attachments
         | none => [])
      let modeStr : String :=
        match request.mode with
        | .auto => "concise"
        | _ => "copilot"
      match model_preference request.mode.asStr (request.model.map Model.asStr) with
      | none =>
        (uploadCalls, .error (.invalidModelForMode
          ((request.model.map Model.asStr).getD "default") request.mode.asStr))
      | some modelPref =>
        let payload : AskPayload :=
          ⟨request.query,
            ⟨attachments, frontendContextUuid, frontendUuid, request.incognito,
              request.language, (request.follow_up.bind (fun f => f.backend_uuid)),
              modeStr, modelPref, "default", request.sources.map Source.asStr,
              API_VERSION⟩⟩
        (uploadCalls ++ [.askRequest payload], .ok payload)

/-- Serde serialization of a `SearchWebResult`. -/
def webResultToJson (w : SearchWebResult) : JsonValue :=
  .obj [("name", .str w.name), ("url", .str w.url), ("snippet", .str w.snippet)]

def optStrToJson : Option String → JsonValue
  | some s => .str s
  | none => .null

/-- Model of `serde_json::to_value(&event)`: the four dedicated fields in
declaration order followed by the flattened residual map. -/
def searchEventToJson (e : SearchEvent) : JsonValue :=
  .obj ([("answer", optStrToJson e.answer),
         ("web_results", .arr (e.web_results.map webResultToJson)),
         ("backend_uuid", optStrToJson e.backend_uuid),
         ("attachments", .arr (e.attachments.map JsonValue.str))] ++ e.raw)

/-- Model of `types.rs`'s `SearchResponse`. -/
structure SearchResponse where
  answer : Option String
  web_results : List SearchWebResult
  follow_up : FollowUpContext
  raw : JsonValue

/-- The `while let Some(result) = stream.next()` loop of `Client::search`:
keeps the last successfully decoded event, returns the first error
immediately. -/
def searchLoop : List (Except Error SearchEvent) → Option SearchEvent →
    Except Error (Option SearchEvent)
  | [], last => .ok last
  | .ok ev :: rest, _ => searchLoop rest (some ev)
  | .error e :: _, _ => .error e

/-- Model of `Client::search` over the item sequence its SSE stream yields:
drain fully, keep the last event, fail with `UnexpectedEndOfStream` when no
event was produced, otherwise build the `SearchResponse`. -/
def search (items : List (Except Error SearchEvent)) : Except Error SearchResponse :=
  match searchLoop items none with
  | .error e => .error e
  | .ok none => .error .unexpectedEndOfStream
  | .ok (some event) =>
    .ok ⟨event.answer, event.web_results, event.as_follow_up, searchEventToJson event⟩

/-! ## Lemmas about the frame decoder -/

theorem startsWithBytes_le {l pat : List Nat} (h : startsWithBytes l pat = true) :
    pat.length ≤ l.length := by
  unfold startsWithBytes at h
  have h' : l.take pat.length = pat := by exact_mod_cast beq_iff_eq.mp h
  have hl := congrArg List.length h'
  simp only [List.length_take] at hl
  omega

theorem startsWithBytes_append {l pat : List Nat} (x : List Nat)
    (h : pat.length ≤ l.length) :
    startsWithBytes (l ++ x) pat = startsWithBytes l pat := by
  unfold startsWithBytes
  rw [List.take_append_of_le_length h]

theorem startsWithBytes_nil_pat (l : List Nat) : startsWithBytes l [] = true := by
  unfold startsWithBytes
  simp

theorem findSublist_nil (pat : List Nat) :
    findSublist pat [] = if startsWithBytes [] pat = true then some 0 else none := rfl

theorem findSublist_cons (pat : List Nat) (a : Nat) (t : List Nat) :
    findSublist pat (a :: t) =
      if startsWithBytes (a :: t) pat = true then some 0
      else (findSublist pat t).map (fun i => i + 1) := rfl

theorem findSublist_bound (pat : List Nat) :
    ∀ (l : List Nat) (pos : Nat), findSublist pat l = some pos →
      pos + pat.length ≤ l.length := by
  intro l
  induction l with
  | nil =>
    intro pos h
    rw [findSublist_nil] at h
    split at h
    · next hs =>
      cases h
      simpa using startsWithBytes_le hs
    · cases h
  | cons a t ih =>
    intro pos h
    rw [findSublist_cons] at h
    split at h
    · next hs =>
      cases h
      simpa using startsWithBytes_le hs
    · next hs =>
      cases hf : findSublist pat t with
      | none => rw [hf] at h; cases h
      | some q =>
        rw [hf] at h
        simp only [Option.map_some'] at h
        cases h
        have := ih q hf
        simp only [List.length_cons]
        omega

theorem findSublist_empty_pat {pat : List Nat} (h : pat.length = 0)
    (l : List Nat) : findSublist pat l = some 0 := by
  have hp : pat = [] := List.length_eq_zero.mp h
  subst hp
  cases l with
  | nil => simp [findSublist_nil, startsWithBytes_nil_pat]
  | cons a t => simp [findSublist_cons, startsWithBytes_nil_pat]

theorem findSublist_append {pat : List Nat} (x : List Nat) :
    ∀ (l : List Nat) (pos : Nat), findSublist pat l = some pos →
      findSublist pat (l ++ x) = some pos := by
  intro l
  induction l with
  | nil =>
    intro pos h
    rw [findSublist_nil] at h
    split at h
    · next hs =>
      cases h
      have hz : pat.length = 0 := by simpa using startsWithBytes_le hs
      simpa using findSublist_empty_pat hz ([] ++ x)
    · cases h
  | cons a t ih =>
    intro pos h
    rw [findSublist_cons] at h
    split at h
    · next hs =>
      cases h
      have hle := startsWithBytes_le hs
      have hs' : startsWithBytes ((a :: t) ++ x) pat = true := by
        rw [startsWithBytes_append x hle]
        exact hs
      rw [List.cons_append] at hs'
      rw [List.cons_append, findSublist_cons, if_pos hs']
    · next hs =>
      cases hf : findSublist pat t with
      | none => rw [hf] at h; cases h
      | some q =>
        rw [hf] at h
        simp only [Option.map_some'] at h
        cases h
        have hq := findSublist_bound pat t q hf
        have hplen : pat.length ≤ (a :: t).length := by
          simp only [List.length_cons]
          omega
        have hs0 : startsWithBytes (a :: t) pat = false := by
          simpa using hs
        have hs' : startsWithBytes ((a :: t) ++ x) pat = false := by
          rw [startsWithBytes_append x hplen]
          exact hs0
        rw [List.cons_append] at hs'
        rw [List.cons_append, findSublist_cons, if_neg (by simp [hs']), ih q hf]
        rfl

theorem delimiter_length : delimiter.length = 4 := rfl

/-! #### Case lemmas for `tryParseEvent` and `pollLoop` -/

theorem tryParseEvent_no_delim {b : List Nat} (f : Bool)
    (h : findSublist delimiter b = none) :
    tryParseEvent b f = (none, b, f) := by
  unfold tryParseEvent
  rw [h]

theorem tryParseEvent_end {b : List Nat} (f : Bool) {pos : Nat}
    (h : findSublist delimiter b = some pos)
    (hend : startsWithBytes (b.take pos) eventEndOfStreamMarker = true) :
    tryParseEvent b f = (none, b.drop (pos + delimiter.length), true) := by
  unfold tryParseEvent
  rw [h]
  simp [hend]

theorem tryParseEvent_msg {b : List Nat} (f : Bool) {pos : Nat}
    (h : findSublist delimiter b = some pos)
    (hend : startsWithBytes (b.take pos) eventEndOfStreamMarker = false) :
    tryParseEvent b f =
      (msgFrameItem (b.take pos), b.drop (pos + delimiter.length), f) := by
  unfold tryParseEvent
  rw [h]
  simp [hend]

theorem tryParseEvent_buffer_le (b : List Nat) (f : Bool) :
    (tryParseEvent b f).2.1.length ≤ b.length := by
  cases hfa : findSublist delimiter b with
  | none => rw [tryParseEvent_no_delim f hfa]
  | some pos =>
    by_cases hend : startsWithBytes (b.take pos) eventEndOfStreamMarker = true
    · rw [tryParseEvent_end f hfa hend]
      simp [List.length_drop]
    · rw [tryParseEvent_msg f hfa (by simpa using hend)]
      simp [List.length_drop]

theorem tryParseEvent_some_lt {b : List Nat} {f : Bool}
    {it : Except Error SearchEvent} {b' : List Nat} {f' : Bool}
    (h : tryParseEvent b f = (some it, b', f')) :
    b'.length < b.length ∧ f' = f := by
  cases hfa : findSublist delimiter b with
  | none =>
    rw [tryParseEvent_no_delim f hfa] at h
    simp at h
  | some pos =>
    have hb := findSublist_bound delimiter b pos hfa
    rw [delimiter_length] at hb
    by_cases hend : startsWithBytes (b.take pos) eventEndOfStreamMarker = true
    · rw [tryParseEvent_end f hfa hend] at h
      simp at h
    · rw [tryParseEvent_msg f hfa (by simpa using hend)] at h
      simp only [Prod.mk.injEq] at h
      obtain ⟨-, h2, h3⟩ := h
      subst h2 h3
      constructor
      · rw [List.length_drop, delimiter_length]
        omega
      · rfl

theorem tryParseEvent_none_same {b : List Nat} {f : Bool}
    {b' : List Nat} {f' : Bool}
    (h : tryParseEvent b f = (none, b', f'))
    (hfa : findSublist delimiter b = none) : b' = b ∧ f' = f := by
  rw [tryParseEvent_no_delim f hfa] at h
  simp only [Prod.mk.injEq] at h
  exact ⟨h.2.1.symm, h.2.2.symm⟩

theorem pollLoop_parse_some {buffer : List Nat} {chunks : List ByteChunk}
    {ev : Except Error SearchEvent} {b' : List Nat} {f' : Bool}
    (h : tryParseEvent buffer false = (some ev, b', f')) :
    pollLoop buffer chunks = (some ev, ⟨b', f'⟩, chunks) := by
  simp only [pollLoop, pollLoopF]
  rw [h]

theorem pollLoop_parse_fin {buffer : List Nat} {chunks : List ByteChunk}
    {b' : List Nat} (h : tryParseEvent buffer false = (none, b', true)) :
    pollLoop buffer chunks = (none, ⟨b', true⟩, chunks) := by
  simp only [pollLoop, pollLoopF]
  rw [h]
  simp

theorem pollLoop_none_nil {buffer : List Nat} {b' : List Nat}
    (h : tryParseEvent buffer false = (none, b', false)) :
    pollLoop buffer [] =
      (if b'.isEmpty then (none, ⟨b', true⟩, ([] : List ByteChunk))
       else
        match tryParseEvent b' true with
        | (some ev, b'', f'') => (some ev, ⟨b'', f''⟩, [])
        | (none, b'', f'') => (none, ⟨b'', f''⟩, [])) := by
  simp only [pollLoop, pollLoopF]
  rw [h]
  simp

theorem pollLoop_none_err {buffer : List Nat} {b' : List Nat} {e : Nat}
    {rest : List ByteChunk}
    (h : tryParseEvent buffer false = (none, b', false)) :
    pollLoop buffer (.err e :: rest) =
      (some (.error (.http e)), ⟨b', false⟩, rest) := by
  simp only [pollLoop, pollLoopF]
  rw [h]
  simp

theorem pollLoop_none_ok {buffer : List Nat} {b' : List Nat} {c : List Nat}
    {rest : List ByteChunk}
    (h : tryParseEvent buffer false = (none, b', false)) :
    pollLoop buffer (.ok c :: rest) = pollLoop (b' ++ c) rest := by
  simp only [pollLoop, pollLoopF, List.length_cons]
  rw [h]
  simp

/-- Every `pollLoop` that yields an item strictly decreases `streamMeasure`. -/
theorem pollLoop_lt :
    ∀ (chunks : List ByteChunk) (buffer : List Nat)
      (it : Except Error SearchEvent) (st' : DecoderState)
      (chunks' : List ByteChunk),
      pollLoop buffer chunks = (some it, st', chunks') →
      streamMeasure st' chunks' < streamMeasure ⟨buffer, false⟩ chunks := by
  intro chunks
  induction chunks with
  | nil =>
    intro buffer it st' chunks' h
    cases htp : tryParseEvent buffer false with
    | mk o rest =>
      obtain ⟨b', f'⟩ := rest
      cases o with
      | some ev =>
        rw [pollLoop_parse_some htp] at h
        obtain ⟨hlt, hf⟩ := tryParseEvent_some_lt htp
        subst hf
        simp only [Prod.mk.injEq] at h
        obtain ⟨-, h2, h3⟩ := h
        subst h2 h3
        simp [streamMeasure]
        omega
      | none =>
        cases f' with
        | true =>
          rw [pollLoop_parse_fin htp] at h
          simp at h
        | false =>
          rw [pollLoop_none_nil htp] at h
          have hble := tryParseEvent_buffer_le buffer false
          rw [htp] at hble
          simp only at hble
          by_cases hbe : b'.isEmpty
          · rw [if_pos hbe] at h
            simp at h
          · rw [if_neg hbe] at h
            cases htp2 : tryParseEvent b' true with
            | mk o2 rest2 =>
              obtain ⟨b'', f''⟩ := rest2
              rw [htp2] at h
              cases o2 with
              | some ev2 =>
                simp only [Prod.mk.injEq] at h
                obtain ⟨-, h2, h3⟩ := h
                subst h2 h3
                obtain ⟨hlt2, hf2⟩ := tryParseEvent_some_lt htp2
                subst hf2
                simp [streamMeasure]
                omega
              | none => simp at h
  | cons c rest ih =>
    intro buffer it st' chunks' h
    cases htp : tryParseEvent buffer false with
    | mk o r =>
      obtain ⟨b', f'⟩ := r
      cases o with
      | some ev =>
        rw [pollLoop_parse_some htp] at h
        obtain ⟨hlt, hf⟩ := tryParseEvent_some_lt htp
        subst hf
        simp only [Prod.mk.injEq] at h
        obtain ⟨-, h2, h3⟩ := h
        subst h2 h3
        simp [streamMeasure]
        omega
      | none =>
        have hble := tryParseEvent_buffer_le buffer false
        rw [htp] at hble
        simp only at hble
        cases f' with
        | true =>
          rw [pollLoop_parse_fin htp] at h
          simp at h
        | false =>
          cases c with
          | err e =>
            rw [pollLoop_none_err htp] at h
            simp only [Prod.mk.injEq] at h
            obtain ⟨-, h2, h3⟩ := h
            subst h2 h3
            simp [streamMeasure, chunkBytes]
            omega
          | ok cb =>
            rw [pollLoop_none_ok htp] at h
            have := ih (b' ++ cb) it st' chunks' h
            simp only [streamMeasure, List.length_append, List.map_cons,
              List.sum_cons, chunkBytes, List.length_cons] at this ⊢
            omega

/-! #### Unfolding the drain -/

theorem pollNext_finished {st : DecoderState} (chunks : List ByteChunk)
    (h : st.finished = true) : pollNext st chunks = (none, st, chunks) := by
  unfold pollNext
  rw [h]
  simp

theorem pollNext_not_finished {st : DecoderState} (chunks : List ByteChunk)
    (h : st.finished = false) : pollNext st chunks = pollLoop st.buffer chunks := by
  unfold pollNext
  rw [h]
  simp

theorem pollNext_lt {st : DecoderState} {chunks : List ByteChunk}
    {it : Except Error SearchEvent} {st' : DecoderState}
    {chunks' : List ByteChunk}
    (h : pollNext st chunks = (some it, st', chunks')) :
    streamMeasure st' chunks' < streamMeasure st chunks := by
  obtain ⟨buffer, fin⟩ := st
  cases fin with
  | true =>
    rw [pollNext_finished chunks rfl] at h
    simp at h
  | false =>
    rw [pollNext_not_finished chunks rfl] at h
    exact pollLoop_lt chunks buffer it st' chunks' h

theorem streamMeasure_zero_finished {st : DecoderState} {chunks : List ByteChunk}
    (h : streamMeasure st chunks = 0) : st.finished = true := by
  cases hf : st.finished with
  | true => rfl
  | false =>
    exfalso
    simp [streamMeasure, hf] at h

theorem drainAux_of_measure_zero {st : DecoderState} {chunks : List ByteChunk}
    (h : streamMeasure st chunks = 0) (k : Nat) : drainAux k st chunks = [] := by
  cases k with
  | zero => rfl
  | succ k =>
    simp only [drainAux]
    rw [pollNext_finished chunks (streamMeasure_zero_finished h)]

theorem drainAux_congr :
    ∀ (n m : Nat) (st : DecoderState) (chunks : List ByteChunk),
      streamMeasure st chunks ≤ n → streamMeasure st chunks ≤ m →
      drainAux n st chunks = drainAux m st chunks := by
  intro n
  induction n with
  | zero =>
    intro m st chunks hn hm
    have h0 : streamMeasure st chunks = 0 := Nat.le_zero.mp hn
    rw [drainAux_of_measure_zero h0 0, drainAux_of_measure_zero h0 m]
  | succ n ih =>
    intro m st chunks hn hm
    cases m with
    | zero =>
      have h0 : streamMeasure st chunks = 0 := Nat.le_zero.mp hm
      rw [drainAux_of_measure_zero h0 (n + 1), drainAux_of_measure_zero h0 0]
    | succ m =>
      simp only [drainAux]
      cases hp : pollNext st chunks with
      | mk o r =>
        obtain ⟨st', cs'⟩ := r
        cases o with
        | none => rfl
        | some it =>
          have hlt := pollNext_lt hp
          have h1 : streamMeasure st' cs' ≤ n := by omega
          have h2 : streamMeasure st' cs' ≤ m := by omega
          show it :: drainAux n st' cs' = it :: drainAux m st' cs'
          rw [ih m st' cs' h1 h2]

/-- One-step unfolding of `drainFrom`: the fuel in its definition is always
sufficient, so it satisfies the natural fixed-point equation of the repeated
poll loop. -/
theorem drainFrom_unfold (st : DecoderState) (chunks : List ByteChunk) :
    drainFrom st chunks =
      match pollNext st chunks with
      | (none, _, _) => []
      | (some it, st', chunks') => it :: drainFrom st' chunks' := by
  cases hp : pollNext st chunks with
  | mk o r =>
    obtain ⟨st', cs'⟩ := r
    cases o with
    | none =>
      unfold drainFrom
      cases hm : streamMeasure st chunks with
      | zero => rfl
      | succ k =>
        simp only [drainAux]
        rw [hp]
    | some it =>
      have hlt := pollNext_lt hp
      unfold drainFrom
      cases hm : streamMeasure st chunks with
      | zero =>
        rw [hm] at hlt
        omega
      | succ k =>
        simp only [drainAux]
        rw [hp]
        have h1 : streamMeasure st' cs' ≤ k := by
          rw [hm] at hlt
          omega
        show it :: drainAux k st' cs' = it :: drainAux (streamMeasure st' cs') st' cs'
        rw [drainAux_congr k (streamMeasure st' cs') st' cs' h1 (Nat.le_refl _)]

theorem drainFrom_finished {st : DecoderState} (chunks : List ByteChunk)
    (h : st.finished = true) : drainFrom st chunks = [] := by
  rw [drainFrom_unfold, pollNext_finished chunks h]

theorem drainTraceAux_of_measure_zero {st : DecoderState}
    {chunks : List ByteChunk} (h : streamMeasure st chunks = 0) (k : Nat) :
    drainTraceAux k st chunks = [] := by
  cases k with
  | zero => rfl
  | succ k =>
    simp only [drainTraceAux]
    rw [streamMeasure_zero_finished h]
    simp

theorem drainTraceAux_congr :
    ∀ (n m : Nat) (st : DecoderState) (chunks : List ByteChunk),
      streamMeasure st chunks ≤ n → streamMeasure st chunks ≤ m →
      drainTraceAux n st chunks = drainTraceAux m st chunks := by
  intro n
  induction n with
  | zero =>
    intro m st chunks hn hm
    have h0 : streamMeasure st chunks = 0 := Nat.le_zero.mp hn
    rw [drainTraceAux_of_measure_zero h0 0, drainTraceAux_of_measure_zero h0 m]
  | succ n ih =>
    intro m st chunks hn hm
    cases m with
    | zero =>
      have h0 : streamMeasure st chunks = 0 := Nat.le_zero.mp hm
      rw [drainTraceAux_of_measure_zero h0 (n + 1), drainTraceAux_of_measure_zero h0 0]
    | succ m =>
      simp only [drainTraceAux]
      cases hf : st.finished with
      | true => simp
      | false =>
        simp only [Bool.false_eq_true, if_false]
        cases hp : pollLoop st.buffer chunks with
        | mk o r =>
          obtain ⟨st', cs'⟩ := r
          cases o with
          | none => rfl
          | some it =>
            have hp' : pollNext st chunks = (some it, st', cs') := by
              rw [pollNext_not_finished chunks hf, hp]
            have hlt := pollNext_lt hp'
            have h1 : streamMeasure st' cs' ≤ n := by omega
            have h2 : streamMeasure st' cs' ≤ m := by omega
            show pollTrace st.buffer chunks ++ drainTraceAux n st' cs'
              = pollTrace st.buffer chunks ++ drainTraceAux m st' cs'
            rw [ih m st' cs' h1 h2]

/-- One-step unfolding of `drainTrace`. -/
theorem drainTrace_unfold (st : DecoderState) (chunks : List ByteChunk) :
    drainTrace st chunks =
      if st.finished then []
      else
        match pollLoop st.buffer chunks with
        | (none, _, _) => pollTrace st.buffer chunks
        | (some _, st', chunks') =>
          pollTrace st.buffer chunks ++ drainTrace st' chunks' := by
  cases hf : st.finished with
  | true =>
    unfold drainTrace
    cases hm : streamMeasure st chunks with
    | zero => rfl
    | succ k =>
      simp only [drainTraceAux]
      rw [hf]
      simp
  | false =>
    simp only [Bool.false_eq_true, if_false]
    cases hp : pollLoop st.buffer chunks with
    | mk o r =>
      obtain ⟨st', cs'⟩ := r
      cases o with
      | none =>
        unfold drainTrace
        cases hm : streamMeasure st chunks with
        | zero =>
          exfalso
          have := streamMeasure_zero_finished hm
          rw [hf] at this
          cases this
        | succ k =>
          simp only [drainTraceAux]
          rw [hf, hp]
          simp
      | some it =>
        have hp' : pollNext st chunks = (some it, st', cs') := by
          rw [pollNext_not_finished chunks hf, hp]
        have hlt := pollNext_lt hp'
        unfold drainTrace
        cases hm : streamMeasure st chunks with
        | zero =>
          rw [hm] at hlt
          omega
        | succ k =>
          simp only [drainTraceAux]
          rw [hf, hp]
          simp only [Bool.false_eq_true, if_false]
          have h1 : streamMeasure st' cs' ≤ k := by
            rw [hm] at hlt
            omega
          show pollTrace st.buffer chunks ++ drainTraceAux k st' cs'
            = pollTrace st.buffer chunks ++ drainTraceAux (streamMeasure st' cs') st' cs'
          rw [drainTraceAux_congr k (streamMeasure st' cs') st' cs' h1 (Nat.le_refl _)]

/-! #### The decoder against the reference single-pass decoding -/

theorem chunksJoin_map_ok (cs : List (List Nat)) :
    chunksJoin (cs.map ByteChunk.ok) = cs.flatten := by
  induction cs with
  | nil => rfl
  | cons c rest ih => simp [chunksJoin, ih]

theorem allOk_map_ok (cs : List (List Nat)) : allOk (cs.map ByteChunk.ok) = true := by
  induction cs with
  | nil => rfl
  | cons c rest ih => simpa [allOk] using ih

theorem candidate_append {buffer : List Nat} (X : List Nat) {pos : Nat}
    (h : findSublist delimiter buffer = some pos) :
    findSublist delimiter (buffer ++ X) = some pos ∧
      (buffer ++ X).take pos = buffer.take pos ∧
      (buffer ++ X).drop (pos + delimiter.length) =
        buffer.drop (pos + delimiter.length) ++ X := by
  have hb := findSublist_bound delimiter buffer pos h
  exact ⟨findSublist_append X buffer pos h,
    List.take_append_of_le_length (by omega),
    List.drop_append_of_le_length (by omega)⟩

theorem decodeBytesAux_none {n : Nat} {bytes : List Nat}
    (h : findSublist delimiter bytes = none) :
    decodeBytesAux (n + 1) bytes = [] := by
  simp only [decodeBytesAux]
  simp [h]

theorem decodeBytesAux_end {n : Nat} {bytes : List Nat} {pos : Nat}
    (h : findSublist delimiter bytes = some pos)
    (hend : startsWithBytes (bytes.take pos) eventEndOfStreamMarker = true) :
    decodeBytesAux (n + 1) bytes = [] := by
  simp only [decodeBytesAux]
  simp [h, hend]

theorem decodeBytesAux_msg {n : Nat} {bytes : List Nat} {pos : Nat}
    {it : Except Error SearchEvent}
    (h : findSublist delimiter bytes = some pos)
    (hend : startsWithBytes (bytes.take pos) eventEndOfStreamMarker = false)
    (hmsg : msgFrameItem (bytes.take pos) = some it) :
    decodeBytesAux (n + 1) bytes =
      it :: decodeBytesAux n (bytes.drop (pos + delimiter.length)) := by
  simp only [decodeBytesAux]
  simp [h, hend, hmsg]

theorem wellFramedAux_msg {n : Nat} {bytes : List Nat} {pos : Nat}
    {it : Except Error SearchEvent}
    (h : findSublist delimiter bytes = some pos)
    (hend : startsWithBytes (bytes.take pos) eventEndOfStreamMarker = false)
    (hmsg : msgFrameItem (bytes.take pos) = some it) :
    wellFramedAux (n + 1) bytes =
      wellFramedAux n (bytes.drop (pos + delimiter.length)) := by
  simp only [wellFramedAux]
  simp [h, hend, hmsg]

theorem wellFramedAux_no_discard {n : Nat} {bytes : List Nat} {pos : Nat}
    (h : findSublist delimiter bytes = some pos)
    (hend : startsWithBytes (bytes.take pos) eventEndOfStreamMarker = false)
    (hmsg : msgFrameItem (bytes.take pos) = none)
    (hwf : wellFramedAux (n + 1) bytes = true) : False := by
  simp only [wellFramedAux] at hwf
  simp [h, hend, hmsg] at hwf

theorem pollTrace_parse_some {buffer : List Nat} {chunks : List ByteChunk}
    {ev : Except Error SearchEvent} {b' : List Nat} {f' : Bool}
    (h : tryParseEvent buffer false = (some ev, b', f')) :
    pollTrace buffer chunks = [] := by
  simp only [pollTrace, pollTraceF]
  rw [h]

theorem pollTrace_parse_fin {buffer : List Nat} {chunks : List ByteChunk}
    {b' : List Nat} (h : tryParseEvent buffer false = (none, b', true)) :
    pollTrace buffer chunks = [] := by
  simp only [pollTrace, pollTraceF]
  rw [h]
  simp

theorem pollTrace_none_nil {buffer : List Nat} {b' : List Nat}
    (h : tryParseEvent buffer false = (none, b', false)) :
    pollTrace buffer [] = [b'] := by
  simp only [pollTrace, pollTraceF]
  rw [h]
  simp

theorem pollTrace_none_err {buffer : List Nat} {b' : List Nat} {e : Nat}
    {rest : List ByteChunk}
    (h : tryParseEvent buffer false = (none, b', false)) :
    pollTrace buffer (.err e :: rest) = [b'] := by
  simp only [pollTrace, pollTraceF]
  rw [h]
  simp

theorem pollTrace_none_ok {buffer : List Nat} {b' : List Nat} {c : List Nat}
    {rest : List ByteChunk}
    (h : tryParseEvent buffer false = (none, b', false)) :
    pollTrace buffer (.ok c :: rest) = b' :: pollTrace (b' ++ c) rest := by
  simp only [pollTrace, pollTraceF, List.length_cons]
  rw [h]
  simp

/-- One-step characterization of `pollLoop` on an error-free, well-framed
stream: it either ends the stream on an empty reference decoding, or emits
exactly the head of the reference decoding and leaves a state that again
covers the rest of the logical stream. -/
theorem pollLoop_char :
    ∀ (chunks : List ByteChunk) (buffer : List Nat) (n : Nat),
      allOk chunks = true →
      (buffer ++ chunksJoin chunks).length < n + 1 →
      wellFramedAux (n + 1) (buffer ++ chunksJoin chunks) = true →
      (decodeBytesAux (n + 1) (buffer ++ chunksJoin chunks) = [] ∧
        (pollLoop buffer chunks).1 = none) ∨
      (∃ it buf' cs',
        pollLoop buffer chunks = (some it, ⟨buf', false⟩, cs') ∧
        allOk cs' = true ∧
        (buf' ++ chunksJoin cs').length < n ∧
        decodeBytesAux (n + 1) (buffer ++ chunksJoin chunks) =
          it :: decodeBytesAux n (buf' ++ chunksJoin cs') ∧
        wellFramedAux n (buf' ++ chunksJoin cs') = true) := by
  intro chunks
  induction chunks with
  | nil =>
    intro buffer n hok hlen hwf
    simp only [chunksJoin, List.append_nil] at hlen hwf ⊢
    cases hfa : findSublist delimiter buffer with
    | none =>
      left
      constructor
      · exact decodeBytesAux_none hfa
      · have htp := tryParseEvent_no_delim false hfa
        rw [pollLoop_none_nil htp]
        by_cases hbe : buffer.isEmpty
        · rw [if_pos hbe]
        · rw [if_neg hbe, tryParseEvent_no_delim true hfa]
    | some pos =>
      have hb := findSublist_bound delimiter buffer pos hfa
      rw [delimiter_length] at hb
      by_cases hend : startsWithBytes (buffer.take pos) eventEndOfStreamMarker = true
      · left
        exact ⟨decodeBytesAux_end hfa hend,
          by rw [pollLoop_parse_fin (tryParseEvent_end false hfa hend)]⟩
      · have hend' : startsWithBytes (buffer.take pos) eventEndOfStreamMarker = false := by
          simpa using hend
        have htp := tryParseEvent_msg false hfa hend'
        cases hmsg : msgFrameItem (buffer.take pos) with
        | none => exact absurd hwf (fun hwf => wellFramedAux_no_discard hfa hend' hmsg hwf)
        | some it =>
          right
          rw [hmsg] at htp
          refine ⟨it, buffer.drop (pos + delimiter.length), [],
            pollLoop_parse_some htp, rfl, ?_, ?_, ?_⟩
          · simp only [chunksJoin, List.append_nil, List.length_drop]
            rw [delimiter_length]
            omega
          · rw [decodeBytesAux_msg hfa hend' hmsg]
            simp [chunksJoin]
          · rw [wellFramedAux_msg hfa hend' hmsg] at hwf
            simpa [chunksJoin] using hwf
  | cons c rest ih =>
    intro buffer n hok hlen hwf
    cases c with
    | err e => simp [allOk] at hok
    | ok cb =>
      have hok' : allOk rest = true := by simpa [allOk] using hok
      have hBX : buffer ++ chunksJoin (ByteChunk.ok cb :: rest) =
          buffer ++ (cb ++ chunksJoin rest) := by simp [chunksJoin]
      cases hfa : findSublist delimiter buffer with
      | none =>
        have htp := tryParseEvent_no_delim false hfa
        rw [pollLoop_none_ok htp]
        have hBeq : buffer ++ chunksJoin (ByteChunk.ok cb :: rest) =
            (buffer ++ cb) ++ chunksJoin rest := by
          simp [chunksJoin, List.append_assoc]
        rw [hBeq] at hlen hwf ⊢
        exact ih (buffer ++ cb) n hok' hlen hwf
      | some pos =>
        have hc := candidate_append (cb ++ chunksJoin rest) hfa
        rw [hBX] at hlen hwf ⊢
        have hb := findSublist_bound delimiter buffer pos hfa
        rw [delimiter_length] at hb
        by_cases hend : startsWithBytes (buffer.take pos) eventEndOfStreamMarker = true
        · left
          constructor
          · exact decodeBytesAux_end hc.1 (by rw [hc.2.1]; exact hend)
          · rw [pollLoop_parse_fin (tryParseEvent_end false hfa hend)]
        · have hend' : startsWithBytes (buffer.take pos) eventEndOfStreamMarker = false := by
            simpa using hend
          have htp := tryParseEvent_msg false hfa hend'
          cases hmsg : msgFrameItem (buffer.take pos) with
          | none =>
            exact absurd hwf (fun hwf =>
              wellFramedAux_no_discard hc.1 (by rw [hc.2.1]; exact hend')
                (by rw [hc.2.1]; exact hmsg) hwf)
          | some it =>
            right
            rw [hmsg] at htp
            refine ⟨it, buffer.drop (pos + delimiter.length),
              ByteChunk.ok cb :: rest,
              pollLoop_parse_some htp, hok, ?_, ?_, ?_⟩
            · have hBd : buffer.drop (pos + delimiter.length) ++
                  chunksJoin (ByteChunk.ok cb :: rest) =
                  (buffer ++ (cb ++ chunksJoin rest)).drop (pos + delimiter.length) := by
                rw [hc.2.2]
                simp [chunksJoin]
              rw [hBd, List.length_drop, delimiter_length]
              simp only [List.length_append] at hlen ⊢
              omega
            · rw [decodeBytesAux_msg hc.1 (by rw [hc.2.1]; exact hend')
                (by rw [hc.2.1]; exact hmsg), hc.2.2]
              simp [chunksJoin]
            · rw [wellFramedAux_msg hc.1 (by rw [hc.2.1]; exact hend')
                (by rw [hc.2.1]; exact hmsg), hc.2.2] at hwf
              simpa [chunksJoin] using hwf

/-- On an error-free, well-framed stream, the decoder's drained item
sequence equals the reference single-pass decoding of the concatenated
bytes. -/
theorem drain_eq :
    ∀ (n : Nat) (buffer : List Nat) (chunks : List ByteChunk),
      allOk chunks = true →
      (buffer ++ chunksJoin chunks).length < n →
      wellFramedAux n (buffer ++ chunksJoin chunks) = true →
      drainFrom ⟨buffer, false⟩ chunks =
        decodeBytesAux n (buffer ++ chunksJoin chunks) := by
  intro n
  induction n with
  | zero =>
    intro buffer chunks hok hlen hwf
    omega
  | succ n ih =>
    intro buffer chunks hok hlen hwf
    rcases pollLoop_char chunks buffer n hok hlen hwf with ⟨hd, hp⟩ |
      ⟨it, buf', cs', hp, hok', hlen', hd, hwf'⟩
    · rw [drainFrom_unfold, pollNext_not_finished chunks rfl]
      cases hpl : pollLoop buffer chunks with
      | mk o r =>
        obtain ⟨st', cs0⟩ := r
        rw [hpl] at hp
        cases o with
        | none => rw [hd]
        | some it => simp at hp
    · rw [drainFrom_unfold, pollNext_not_finished chunks rfl, hp]
      show it :: drainFrom ⟨buf', false⟩ cs' = _
      rw [hd, ih buf' cs' hok' hlen' hwf']

/-- On an error-free, well-framed stream, every buffer retained at an
upstream-poll point inside one `poll_next` call is delimiter-free. -/
theorem pollTrace_noDelim :
    ∀ (chunks : List ByteChunk) (buffer : List Nat) (n : Nat),
      allOk chunks = true →
      (buffer ++ chunksJoin chunks).length < n + 1 →
      wellFramedAux (n + 1) (buffer ++ chunksJoin chunks) = true →
      ∀ b ∈ pollTrace buffer chunks, findSublist delimiter b = none := by
  intro chunks
  induction chunks with
  | nil =>
    intro buffer n hok hlen hwf b hb
    cases hfa : findSublist delimiter buffer with
    | none =>
      rw [pollTrace_none_nil (tryParseEvent_no_delim false hfa)] at hb
      simp at hb
      subst hb
      exact hfa
    | some pos =>
      simp only [chunksJoin, List.append_nil] at hwf
      by_cases hend : startsWithBytes (buffer.take pos) eventEndOfStreamMarker = true
      · rw [pollTrace_parse_fin (tryParseEvent_end false hfa hend)] at hb
        simp at hb
      · have hend' : startsWithBytes (buffer.take pos) eventEndOfStreamMarker = false := by
          simpa using hend
        have htp := tryParseEvent_msg false hfa hend'
        cases hmsg : msgFrameItem (buffer.take pos) with
        | none => exact absurd hwf (fun hwf => wellFramedAux_no_discard hfa hend' hmsg hwf)
        | some it =>
          rw [hmsg] at htp
          rw [pollTrace_parse_some htp] at hb
          simp at hb
  | cons c rest ih =>
    intro buffer n hok hlen hwf b hb
    cases c with
    | err e => simp [allOk] at hok
    | ok cb =>
      have hok' : allOk rest = true := by simpa [allOk] using hok
      have hBeq : buffer ++ chunksJoin (ByteChunk.ok cb :: rest) =
          (buffer ++ cb) ++ chunksJoin rest := by
        simp [chunksJoin, List.append_assoc]
      cases hfa : findSublist delimiter buffer with
      | none =>
        rw [pollTrace_none_ok (tryParseEvent_no_delim false hfa)] at hb
        rw [hBeq] at hlen hwf
        rcases List.mem_cons.mp hb with hb | hb
        · subst hb
          exact hfa
        · exact ih (buffer ++ cb) n hok' hlen hwf b hb
      | some pos =>
        rw [hBeq] at hwf
        have hc := candidate_append (cb ++ chunksJoin rest) hfa
        have hc' : findSublist delimiter ((buffer ++ cb) ++ chunksJoin rest) = some pos ∧
            ((buffer ++ cb) ++ chunksJoin rest).take pos = buffer.take pos := by
          constructor
          · rw [List.append_assoc]
            exact hc.1
          · rw [List.append_assoc]
            exact hc.2.1
        by_cases hend : startsWithBytes (buffer.take pos) eventEndOfStreamMarker = true
        · rw [pollTrace_parse_fin (tryParseEvent_end false hfa hend)] at hb
          simp at hb
        · have hend' : startsWithBytes (buffer.take pos) eventEndOfStreamMarker = false := by
            simpa using hend
          have htp := tryParseEvent_msg false hfa hend'
          cases hmsg : msgFrameItem (buffer.take pos) with
          | none =>
            exact absurd hwf (fun hwf =>
              wellFramedAux_no_discard hc'.1 (by rw [hc'.2]; exact hend')
                (by rw [hc'.2]; exact hmsg) hwf)
          | some it =>
            rw [hmsg] at htp
            rw [pollTrace_parse_some htp] at hb
            simp at hb

/-- On an error-free, well-framed stream, every buffer retained at an
upstream-poll point over a whole drain is delimiter-free. -/
theorem drainTrace_noDelim :
    ∀ (n : Nat) (buffer : List Nat) (chunks : List ByteChunk),
      allOk chunks = true →
      (buffer ++ chunksJoin chunks).length < n →
      wellFramedAux n (buffer ++ chunksJoin chunks) = true →
      ∀ b ∈ drainTrace ⟨buffer, false⟩ chunks, findSublist delimiter b = none := by
  intro n
  induction n with
  | zero =>
    intro buffer chunks hok hlen hwf
    omega
  | succ n ih =>
    intro buffer chunks hok hlen hwf b hb
    rw [drainTrace_unfold] at hb
    simp only [Bool.false_eq_true, if_false] at hb
    rcases pollLoop_char chunks buffer n hok hlen hwf with ⟨hd, hp⟩ |
      ⟨it, buf', cs', hp, hok', hlen', hd, hwf'⟩
    · cases hpl : pollLoop buffer chunks with
      | mk o r =>
        obtain ⟨st', cs0⟩ := r
        rw [hpl] at hb hp
        cases o with
        | none => exact pollTrace_noDelim chunks buffer n hok hlen hwf b hb
        | some it => simp at hp
    · rw [hp] at hb
      simp only at hb
      rcases List.mem_append.mp hb with hb | hb
      · exact pollTrace_noDelim chunks buffer n hok hlen hwf b hb
      · exact ih buf' cs' hok' hlen' hwf' b hb

/-! ## Lemmas about the event content extractor -/

theorem mapGet_objInsert_self (m : JsonObj) (k : String) (v : JsonValue) :
    mapGet (objInsert m k v) k = some v := by
  induction m with
  | nil => simp [objInsert, mapGet]
  | cons p rest ih =>
    obtain ⟨k', v'⟩ := p
    by_cases h : k' = k
    · subst h
      simp [objInsert, mapGet]
    · have hb : (k' == k) = false := beq_eq_false_iff_ne.mpr h
      simp only [objInsert, hb, Bool.false_eq_true, if_false]
      simp only [mapGet, hb, Bool.false_eq_true, if_false]
      exact ih

theorem mapGet_objInsert_ne (m : JsonObj) {k k' : String} (v : JsonValue)
    (h : k' ≠ k) : mapGet (objInsert m k v) k' = mapGet m k' := by
  have hb : (k == k') = false := beq_eq_false_iff_ne.mpr (fun hc => h hc.symm)
  induction m with
  | nil =>
    simp only [objInsert, mapGet, hb, Bool.false_eq_true, if_false]
  | cons p rest ih =>
    obtain ⟨k0, v0⟩ := p
    by_cases h0 : k0 = k
    · subst h0
      simp only [objInsert, beq_self_eq_true, if_pos, mapGet, hb,
        Bool.false_eq_true, if_false]
    · have hb0 : (k0 == k) = false := beq_eq_false_iff_ne.mpr h0
      simp only [objInsert, hb0, Bool.false_eq_true, if_false, mapGet]
      by_cases h1 : (k0 == k') = true
      · rw [if_pos h1, if_pos h1]
      · rw [if_neg h1, if_neg h1]
        exact ih

/-- Keys other than "text" are untouched by `parse_nested_text_field`. -/
theorem parseNestedTextField_other (m : JsonObj) {key : String}
    (h : key ≠ "text") : mapGet (parseNestedTextField m) key = mapGet m key := by
  unfold parseNestedTextField
  cases htv : mapGet m "text" with
  | none => rfl
  | some tv =>
    cases tv with
    | str ts =>
      simp only [JsonValue.asStr]
      cases hp : jsonParse ts with
      | none => rfl
      | some parsed => exact mapGet_objInsert_ne m parsed h
    | null => rfl
    | bool b => rfl
    | num a b => rfl
    | arr l => rfl
    | obj o => rfl

/-- Reduction of `parse_sse_event` once the top-level parse yields an
object. -/
theorem parseSseEvent_obj {payload : String} {content : JsonObj}
    (h : jsonParse payload = some (.obj content)) :
    parseSseEvent payload =
      .ok ⟨(extractAnswerAndWebResults (parseNestedTextField content)).1,
        (extractAnswerAndWebResults (parseNestedTextField content)).2,
        extractString (parseNestedTextField content) "backend_uuid",
        extractStringArray (parseNestedTextField content) "attachments",
        buildRawMap (parseNestedTextField content)⟩ := by
  unfold parseSseEvent
  rw [h]

/-- `parse_sse_event` fails exactly when the top-level payload is not a JSON
object, and the only error it raises itself is the JSON parse error. -/
theorem parseSseEvent_not_obj {payload : String}
    (h : ∀ m, jsonParse payload ≠ some (.obj m)) :
    parseSseEvent payload = .error .json := by
  unfold parseSseEvent
  cases hp : jsonParse payload with
  | none => rfl
  | some v =>
    cases v with
    | obj m => exact absurd hp (h m)
    | null => rfl
    | bool b => rfl
    | num a b => rfl
    | str s => rfl
    | arr l => rfl

theorem extractWebResult_eq (v : JsonValue) :
    extractWebResult v =
      match (v.getKey "name").bind JsonValue.asStr,
          (v.getKey "url").bind JsonValue.asStr,
          (v.getKey "snippet").bind JsonValue.asStr with
      | some n, some u, some s => some ⟨n, u, s⟩
      | _, _, _ => none := by
  unfold extractWebResult
  cases (v.getKey "name").bind JsonValue.asStr <;>
    cases (v.getKey "url").bind JsonValue.asStr <;>
    cases (v.getKey "snippet").bind JsonValue.asStr <;> rfl

/-- Reduction of `extract_from_final_step` along the fully successful nested
path. -/
theorem extractFromFinalStep_eq {content : JsonObj} {steps : List JsonValue}
    {finalStep stepContent answerData : JsonValue} {answerStr : String}
    (htext : mapGet content "text" = some (.arr steps))
    (hfind : steps.find? isFinalStep = some finalStep)
    (hcontent : finalStep.getKey "content" = some stepContent)
    (hanswerStr : (stepContent.getKey "answer").bind JsonValue.asStr = some answerStr)
    (hansParse : jsonParse answerStr = some answerData) :
    extractFromFinalStep content =
      some ((answerData.getKey "answer").bind JsonValue.asStr,
        (((answerData.getKey "web_results").bind JsonValue.asArray).getD []).filterMap
          extractWebResult) := by
  unfold extractFromFinalStep
  rw [htext]
  simp only [Option.bind_eq_bind, Option.some_bind, JsonValue.asArray]
  rw [hfind]
  simp only [Option.some_bind]
  rw [hcontent]
  simp only [Option.some_bind]
  rw [hanswerStr]
  simp only [Option.some_bind]
  rw [hansParse]
  simp only [Option.some_bind]
  rfl

theorem parseNestedTextField_parse {m : JsonObj} {ts : String} {v : JsonValue}
    (h1 : mapGet m "text" = some (.str ts)) (h2 : jsonParse ts = some v) :
    parseNestedTextField m = objInsert m "text" v := by
  unfold parseNestedTextField
  rw [h1]
  simp only [JsonValue.asStr]
  rw [h2]

theorem parseNestedTextField_parse_fail {m : JsonObj} {ts : String}
    (h1 : mapGet m "text" = some (.str ts)) (h2 : jsonParse ts = none) :
    parseNestedTextField m = m := by
  unfold parseNestedTextField
  rw [h1]
  simp only [JsonValue.asStr]
  rw [h2]

theorem extractFromFinalStep_not_array {content : JsonObj} {v : JsonValue}
    (h : mapGet content "text" = some v) (ha : v.asArray = none) :
    extractFromFinalStep content = none := by
  unfold extractFromFinalStep
  rw [h]
  simp only [Option.bind_eq_bind, Option.some_bind]
  rw [ha]
  rfl

theorem extractFromFinalStep_no_final {content : JsonObj} {steps : List JsonValue}
    (h : mapGet content "text" = some (.arr steps))
    (hf : steps.find? isFinalStep = none) :
    extractFromFinalStep content = none := by
  unfold extractFromFinalStep
  rw [h]
  simp only [Option.bind_eq_bind, Option.some_bind, JsonValue.asArray]
  rw [hf]
  rfl

theorem extractFromFinalStep_inner_parse_fail {content : JsonObj}
    {steps : List JsonValue} {finalStep stepContent : JsonValue}
    {answerStr : String}
    (htext : mapGet content "text" = some (.arr steps))
    (hfind : steps.find? isFinalStep = some finalStep)
    (hcontent : finalStep.getKey "content" = some stepContent)
    (hanswerStr : (stepContent.getKey "answer").bind JsonValue.asStr = some answerStr)
    (hansParse : jsonParse answerStr = none) :
    extractFromFinalStep content = none := by
  unfold extractFromFinalStep
  rw [htext]
  simp only [Option.bind_eq_bind, Option.some_bind, JsonValue.asArray]
  rw [hfind]
  simp only [Option.some_bind]
  rw [hcontent]
  simp only [Option.some_bind]
  rw [hanswerStr]
  simp only [Option.some_bind]
  rw [hansParse]
  rfl

theorem extractAnswerAndWebResults_some {content : JsonObj}
    {r : Option String × List SearchWebResult}
    (h : extractFromFinalStep content = some r) :
    extractAnswerAndWebResults content = r := by
  unfold extractAnswerAndWebResults
  rw [h]

theorem extractAnswerAndWebResults_none {content : JsonObj}
    (h : extractFromFinalStep content = none) :
    extractAnswerAndWebResults content =
      ((mapGet content "answer").bind JsonValue.asStr, []) := by
  unfold extractAnswerAndWebResults
  rw [h]

/-! ## Lemmas about `Client::search` -/

theorem searchLoop_append_last :
    ∀ (evs : List SearchEvent) (acc : Option SearchEvent) (e : SearchEvent),
      searchLoop (evs.map Except.ok ++ [Except.ok e]) acc = .ok (some e) := by
  intro evs
  induction evs with
  | nil =>
    intro acc e
    rfl
  | cons ev rest ih =>
    intro acc e
    simp only [List.map_cons, List.cons_append, searchLoop]
    exact ih (some ev) e

theorem searchLoop_first_error :
    ∀ (evs : List SearchEvent) (acc : Option SearchEvent) (er : Error)
      (post : List (Except Error SearchEvent)),
      searchLoop (evs.map Except.ok ++ Except.error er :: post) acc = .error er := by
  intro evs
  induction evs with
  | nil =>
    intro acc er post
    rfl
  | cons ev rest ih =>
    intro acc er post
    simp only [List.map_cons, List.cons_append, searchLoop]
    exact ih (some ev) er post

/-! ## Concrete streams and payloads used as witnesses and counterexamples -/

/-- A complete message frame carrying the payload from the spec's concrete
scenario. -/
def exMsgParis : List Nat :=
  strBytes "event: message\r\ndata: \x7b\"answer\":\"Paris\"\x7d\r\n\r\n"

/-- A minimal complete message frame. -/
def exMsgEmpty : List Nat := strBytes "event: message\r\ndata: \x7b\x7d\r\n\r\n"

/-- A terminal frame: marker line followed by an (empty) data line. -/
def exEndFrame : List Nat := strBytes "event: end_of_stream\r\ndata: \r\n\r\n"

/-- An unrecognized frame candidate (silently discarded by the decoder). -/
def exJunkFrame : List Nat := strBytes "x\r\n\r\n"

/-- A truncated message frame with no closing delimiter. -/
def exTruncated : List Nat := strBytes "event: message\r\ndata: \x7b\"ans"

/-- A complete message frame whose payload is not valid UTF-8. -/
def exBadUtf8Frame : List Nat :=
  strBytes "event: message\r\ndata: " ++ [255] ++ strBytes "\r\n\r\n"

/-- The spec's doubly-encoded inner answer, with one complete citation and
one citation missing "snippet". -/
def exInnerAnswer : String :=
  jsonEncodeF 10 (.obj [("answer", .str "A"),
    ("web_results", .arr [
      .obj [("name", .str "N"), ("url", .str "U"), ("snippet", .str "S")],
      .obj [("name", .str "N2"), ("url", .str "U2")]])])

/-- A steps array whose FINAL step carries `exInnerAnswer` as a JSON-encoded
string. -/
def exStepsText : String :=
  jsonEncodeF 10 (.arr [
    .obj [("step_type", .str "SEARCH"), ("content", .obj [])],
    .obj [("step_type", .str "FINAL"),
      ("content", .obj [("answer", .str exInnerAnswer)])]])

/-- A payload whose "text" field is the JSON-array-string `exStepsText`. -/
def exPayloadNested : String := jsonEncodeF 10 (.obj [("text", .str exStepsText)])

/-- A steps array with no FINAL entry. -/
def exStepsNoFinal : String :=
  jsonEncodeF 10 (.arr [.obj [("step_type", .str "SEARCH"), ("content", .obj [])]])

/-- A payload with a FINAL-less steps text plus a top-level answer. -/
def exPayloadFallback : String :=
  jsonEncodeF 10 (.obj [("text", .str exStepsNoFinal), ("answer", .str "Top")])

/-- A constant successful upload collaborator. -/
def exUploadOk : UploadFile → Except Error String :=
  fun _ => .ok "https://example.com/upload"

set_option maxRecDepth 10000

/-! ## The claims -/

/-- Claim C1, as stated, is false on the code: the decoded sequence can
depend on chunk boundaries.  At this concrete input the same logical byte
stream — an unrecognized frame candidate followed by two well-formed message
frames — yields one decoded frame when delivered as a single chunk but two
decoded frames when split after the unrecognized candidate: after discarding
the candidate the decoder polls the upstream, and if the upstream is already
complete it transitions to Finished and emits at most one of the frames
still sitting in its buffer. -/
theorem claim1_counterexample :
    [exJunkFrame ++ exMsgEmpty ++ exMsgEmpty].flatten =
        [exJunkFrame, exMsgEmpty ++ exMsgEmpty].flatten ∧
      sseDrain ([exJunkFrame ++ exMsgEmpty ++ exMsgEmpty].map ByteChunk.ok) ≠
        sseDrain ([exJunkFrame, exMsgEmpty ++ exMsgEmpty].map ByteChunk.ok) := by
  constructor
  · decide
  · intro h
    exact absurd (congrArg List.length h) (by decide)

/-- Claim C1 (amended): chunk-boundary independence of the frame decoder
holds for every error-free logical byte stream in which each delimiter-
separated frame candidate is recognized (a well-formed message frame or a
terminal frame, i.e. no candidate falls into the silently-discarded case):
splitting such a stream at any byte boundaries — including boundaries inside
the CR LF CR LF delimiter — yields the identical ordered sequence of decoded
frames. -/
theorem claim1_chunk_boundary_independence :
    ∀ (cs1 cs2 : List (List Nat)),
      cs1.flatten = cs2.flatten →
      wellFramed cs1.flatten = true →
      sseDrain (cs1.map ByteChunk.ok) = sseDrain (cs2.map ByteChunk.ok) := by
  have key : ∀ (cs : List (List Nat)), wellFramed cs.flatten = true →
      sseDrain (cs.map ByteChunk.ok) = decodeBytes cs.flatten := by
    intro cs hwf
    unfold sseDrain decodeBytes
    have hj : [] ++ chunksJoin (cs.map ByteChunk.ok) = cs.flatten := by
      rw [List.nil_append, chunksJoin_map_ok]
    have := drain_eq (cs.flatten.length + 1) [] (cs.map ByteChunk.ok)
      (allOk_map_ok cs) (by rw [hj]; omega) (by rw [hj]; exact hwf)
    rw [hj] at this
    exact this
  intro cs1 cs2 hj hwf
  rw [key cs1 hwf, key cs2 (by rw [← hj]; exact hwf), hj]

theorem claim1_witness :
    ([exMsgParis ++ exEndFrame] : List (List Nat)).flatten =
        [(exMsgParis ++ exEndFrame).take 42, (exMsgParis ++ exEndFrame).drop 42].flatten ∧
      wellFramed ([exMsgParis ++ exEndFrame] : List (List Nat)).flatten = true ∧
      sseDrain ([exMsgParis ++ exEndFrame].map ByteChunk.ok) =
        sseDrain ([(exMsgParis ++ exEndFrame).take 42,
          (exMsgParis ++ exEndFrame).drop 42].map ByteChunk.ok) :=
  ⟨by decide, by decide,
    claim1_chunk_boundary_independence
      [exMsgParis ++ exEndFrame]
      [(exMsgParis ++ exEndFrame).take 42, (exMsgParis ++ exEndFrame).drop 42]
      (by decide) (by decide)⟩

/-- Claim C2: once the decoder's state machine is Finished, polling produces
no further items from any remaining chunks or buffered bytes (first
conjunct); and once a frame candidate beginning with the end_of_stream
marker is decoded, the stream ends with no further frames, even though
complete well-formed message frames may still sit in the buffer after the
terminal candidate or arrive in later chunks (second conjunct). -/
theorem claim2_finished_terminal :
    (∀ (buffer : List Nat) (chunks : List ByteChunk),
       drainFrom ⟨buffer, true⟩ chunks = []) ∧
    (∀ (buffer : List Nat) (chunks : List ByteChunk) (pos : Nat),
       findSublist delimiter buffer = some pos →
       startsWithBytes (buffer.take pos) eventEndOfStreamMarker = true →
       drainFrom ⟨buffer, false⟩ chunks = []) := by
  constructor
  · intro buffer chunks
    exact drainFrom_finished chunks rfl
  · intro buffer chunks pos h hend
    rw [drainFrom_unfold, pollNext_not_finished chunks rfl,
      pollLoop_parse_fin (tryParseEvent_end false h hend)]

theorem claim2_witness :
    drainFrom ⟨exMsgEmpty, true⟩ [ByteChunk.ok exMsgEmpty] = [] ∧
    drainFrom ⟨exEndFrame ++ exMsgEmpty, false⟩ [ByteChunk.ok exMsgEmpty] = [] :=
  ⟨claim2_finished_terminal.1 exMsgEmpty [ByteChunk.ok exMsgEmpty],
    claim2_finished_terminal.2 (exEndFrame ++ exMsgEmpty) [ByteChunk.ok exMsgEmpty]
      28 (by decide) (by decide)⟩

/-- Claim C3: when the upstream signals completion while the decoder's
buffer holds bytes that never completed a frame (no CR LF CR LF delimiter),
the stream ends with no extra frame and no error — the item sequence from
such a state is empty (first conjunct), and so is the item sequence of a
whole stream made of a single truncated frame (second conjunct). -/
theorem claim3_truncated_tail_dropped :
    (∀ (buffer : List Nat),
       findSublist delimiter buffer = none →
       drainFrom ⟨buffer, false⟩ [] = []) ∧
    (∀ (b : List Nat),
       findSublist delimiter b = none →
       sseDrain [ByteChunk.ok b] = []) := by
  have part1 : ∀ (buffer : List Nat), findSublist delimiter buffer = none →
      drainFrom ⟨buffer, false⟩ [] = [] := by
    intro buffer h
    rw [drainFrom_unfold, pollNext_not_finished [] rfl,
      pollLoop_none_nil (tryParseEvent_no_delim false h)]
    by_cases hbe : buffer.isEmpty
    · rw [if_pos hbe]
    · rw [if_neg hbe, tryParseEvent_no_delim true h]
  refine ⟨part1, ?_⟩
  intro b h
  unfold sseDrain
  rw [drainFrom_unfold, pollNext_not_finished [ByteChunk.ok b] rfl,
    pollLoop_none_ok (tryParseEvent_no_delim false (by decide))]
  have hb : ([] : List Nat) ++ b = b := List.nil_append b
  rw [hb]
  have := part1 b h
  rw [drainFrom_unfold, pollNext_not_finished [] rfl] at this
  cases hpl : pollLoop b [] with
  | mk o r =>
    obtain ⟨st', cs'⟩ := r
    rw [hpl] at this
    cases o with
    | none => rfl
    | some it => simp at this

theorem claim3_witness :
    drainFrom ⟨exTruncated, false⟩ [] = [] ∧
      sseDrain [ByteChunk.ok exTruncated] = [] :=
  ⟨claim3_truncated_tail_dropped.1 exTruncated (by decide),
    claim3_truncated_tail_dropped.2 exTruncated (by decide)⟩

/-- Claim C4, as stated, is false on the code: the decoder can suspend
awaiting further input while its retained tail contains a complete
CR LF CR LF delimiter.  At this concrete input the decoder discards an
unrecognized candidate and then polls the upstream even though a complete
well-formed message frame (delimiter included) is still sitting in its
buffer; the recorded buffer at that upstream-poll point contains the
delimiter. -/
theorem claim4_counterexample :
    (drainTrace ⟨[], false⟩
        [ByteChunk.ok (exJunkFrame ++ exMsgEmpty), ByteChunk.ok exMsgEmpty]).any
      (fun b => (findSublist delimiter b).isSome) = true := by decide

/-- Claim C4 (amended): the suspension invariant holds for every error-free
stream whose frame candidates are all recognized (no silently-discarded
candidate): at every point where the decoder polls the upstream for more
input — the points where it can suspend between feed/poll steps while not
Finished — its retained byte tail contains no complete CR LF CR LF
delimiter. -/
theorem claim4_no_delimiter_at_suspension :
    ∀ (cs : List (List Nat)),
      wellFramed cs.flatten = true →
      (drainTrace ⟨[], false⟩ (cs.map ByteChunk.ok)).all
        (fun b => (findSublist delimiter b).isNone) = true := by
  intro cs hwf
  rw [List.all_eq_true]
  intro b hb
  have hj : [] ++ chunksJoin (cs.map ByteChunk.ok) = cs.flatten := by
    rw [List.nil_append, chunksJoin_map_ok]
  have := drainTrace_noDelim (cs.flatten.length + 1) [] (cs.map ByteChunk.ok)
    (allOk_map_ok cs) (by rw [hj]; omega) (by rw [hj]; exact hwf) b hb
  simp [this]

theorem claim4_witness :
    wellFramed ([(exMsgParis ++ exEndFrame).take 20,
        (exMsgParis ++ exEndFrame).drop 20] : List (List Nat)).flatten = true ∧
      (drainTrace ⟨[], false⟩
          ([(exMsgParis ++ exEndFrame).take 20,
            (exMsgParis ++ exEndFrame).drop 20].map ByteChunk.ok)).all
        (fun b => (findSublist delimiter b).isNone) = true :=
  ⟨by decide,
    claim4_no_delimiter_at_suspension
      [(exMsgParis ++ exEndFrame).take 20, (exMsgParis ++ exEndFrame).drop 20]
      (by decide)⟩

/-- Step objects of the nested witness payload. -/
def exStepSearch : JsonValue :=
  .obj [("step_type", .str "SEARCH"), ("content", .obj [])]

def exStepFinal : JsonValue :=
  .obj [("step_type", .str "FINAL"), ("content", .obj [("answer", .str exInnerAnswer)])]

def exWr1 : JsonValue :=
  .obj [("name", .str "N"), ("url", .str "U"), ("snippet", .str "S")]

def exWr2 : JsonValue := .obj [("name", .str "N2"), ("url", .str "U2")]

def exAnswerData : JsonValue :=
  .obj [("answer", .str "A"), ("web_results", .arr [exWr1, exWr2])]

/-- Claim C5: for every payload whose top-level "text" field is a
JSON-array-string of step objects in which the (first) step with step_type
"FINAL" has a content.answer that is itself a JSON-object-string carrying an
"answer" string and a "web_results" array, the event content extractor
returns that doubly-decoded answer together with exactly those entries of
the nested web_results array that have all three string fields name, url and
snippet — an entry missing any of them is excluded, without an error and
without defaulting the missing field (second conjunct). -/
theorem claim5_nested_final_step :
    ∀ (payload : String) (content : JsonObj) (textStr answerStr ans : String)
      (steps : List JsonValue) (finalStep stepContent answerData : JsonValue)
      (ws : List JsonValue),
      jsonParse payload = some (.obj content) →
      mapGet content "text" = some (.str textStr) →
      jsonParse textStr = some (.arr steps) →
      steps.find? isFinalStep = some finalStep →
      finalStep.getKey "content" = some stepContent →
      (stepContent.getKey "answer").bind JsonValue.asStr = some answerStr →
      jsonParse answerStr = some answerData →
      (answerData.getKey "answer").bind JsonValue.asStr = some ans →
      answerData.getKey "web_results" = some (.arr ws) →
      (parseSseEvent payload =
        .ok ⟨some ans,
          ws.filterMap (fun v =>
            match (v.getKey "name").bind JsonValue.asStr,
                (v.getKey "url").bind JsonValue.asStr,
                (v.getKey "snippet").bind JsonValue.asStr with
            | some n, some u, some s => some ⟨n, u, s⟩
            | _, _, _ => none),
          extractString (objInsert content "text" (.arr steps)) "backend_uuid",
          extractStringArray (objInsert content "text" (.arr steps)) "attachments",
          buildRawMap (objInsert content "text" (.arr steps))⟩) ∧
      (∀ v ∈ ws, (v.getKey "snippet").bind JsonValue.asStr = none →
        extractWebResult v = none) := by
  intro payload content textStr answerStr ans steps finalStep stepContent answerData ws
    hparse htext htparse hfind hcontent hastr haparse hans hws
  have hnested : parseNestedTextField content = objInsert content "text" (.arr steps) :=
    parseNestedTextField_parse htext htparse
  have hffs := extractFromFinalStep_eq
    (mapGet_objInsert_self content "text" (.arr steps)) hfind hcontent hastr haparse
  constructor
  · have hfm : ws.filterMap extractWebResult =
        ws.filterMap (fun v =>
          match (v.getKey "name").bind JsonValue.asStr,
              (v.getKey "url").bind JsonValue.asStr,
              (v.getKey "snippet").bind JsonValue.asStr with
          | some n, some u, some s => some ⟨n, u, s⟩
          | _, _, _ => none) := by
      congr 1
      funext v
      exact extractWebResult_eq v
    rw [parseSseEvent_obj hparse, hnested, extractAnswerAndWebResults_some hffs]
    simp only [hans, hws, JsonValue.asArray, Option.some_bind, Option.getD_some]
    rw [hfm]
  · intro v hv hsnip
    rw [extractWebResult_eq v, hsnip]
    cases (v.getKey "name").bind JsonValue.asStr <;>
      cases (v.getKey "url").bind JsonValue.asStr <;> rfl

theorem claim5_witness :
    parseSseEvent exPayloadNested =
      .ok ⟨some "A",
        [exWr1, exWr2].filterMap (fun v =>
          match (v.getKey "name").bind JsonValue.asStr,
              (v.getKey "url").bind JsonValue.asStr,
              (v.getKey "snippet").bind JsonValue.asStr with
          | some n, some u, some s => some ⟨n, u, s⟩
          | _, _, _ => none),
        extractString (objInsert [("text", JsonValue.str exStepsText)] "text"
          (.arr [exStepSearch, exStepFinal])) "backend_uuid",
        extractStringArray (objInsert [("text", JsonValue.str exStepsText)] "text"
          (.arr [exStepSearch, exStepFinal])) "attachments",
        buildRawMap (objInsert [("text", JsonValue.str exStepsText)] "text"
          (.arr [exStepSearch, exStepFinal]))⟩ :=
  (claim5_nested_final_step exPayloadNested [("text", .str exStepsText)]
    exStepsText exInnerAnswer "A" [exStepSearch, exStepFinal] exStepFinal
    (.obj [("answer", .str exInnerAnswer)]) exAnswerData [exWr1, exWr2]
    rfl rfl rfl rfl rfl rfl rfl rfl rfl).1

/-- `true` iff an optional JSON value is present and is an object — the
condition under which `serde_json::from_str::<Map<String, Value>>`
succeeds. -/
def isObjOption : Option JsonValue → Bool
  | some (.obj _) => true
  | _ => false

/-- Claim C6: the event content extractor raises a parse error only when the
top-level payload fails to parse as a JSON object (conjuncts 1 and 2: it
succeeds exactly on object payloads, and its only error is the JSON parse
error), while every nested failure is recovered locally: whenever the
FINAL-step path yields nothing, the decoded event falls back to the
top-level "answer" string with an empty web_results list (conjunct 3), and
each of the listed nested failure modes — "text" not valid JSON, parsed
"text" not an array, no FINAL step, the FINAL step's inner answer string
failing to parse — indeed makes the FINAL-step path yield nothing
(conjuncts 4-7). -/
theorem claim6_top_level_error_only :
    (∀ s : String, (parseSseEvent s).isOk = isObjOption (jsonParse s)) ∧
    (∀ (s : String) (e : Error), parseSseEvent s = .error e → e = Error.json) ∧
    (∀ (s : String) (m : JsonObj),
       jsonParse s = some (.obj m) →
       extractFromFinalStep (parseNestedTextField m) = none →
       parseSseEvent s =
         .ok ⟨(mapGet m "answer").bind JsonValue.asStr, [],
           extractString (parseNestedTextField m) "backend_uuid",
           extractStringArray (parseNestedTextField m) "attachments",
           buildRawMap (parseNestedTextField m)⟩) ∧
    (∀ (m : JsonObj) (ts : String),
       mapGet m "text" = some (.str ts) → jsonParse ts = none →
       extractFromFinalStep (parseNestedTextField m) = none) ∧
    (∀ (m : JsonObj) (ts : String) (v : JsonValue),
       mapGet m "text" = some (.str ts) → jsonParse ts = some v →
       v.asArray = none →
       extractFromFinalStep (parseNestedTextField m) = none) ∧
    (∀ (m : JsonObj) (ts : String) (steps : List JsonValue),
       mapGet m "text" = some (.str ts) → jsonParse ts = some (.arr steps) →
       steps.find? isFinalStep = none →
       extractFromFinalStep (parseNestedTextField m) = none) ∧
    (∀ (m : JsonObj) (ts : String) (steps : List JsonValue)
       (finalStep stepContent : JsonValue) (answerStr : String),
       mapGet m "text" = some (.str ts) → jsonParse ts = some (.arr steps) →
       steps.find? isFinalStep = some finalStep →
       finalStep.getKey "content" = some stepContent →
       (stepContent.getKey "answer").bind JsonValue.asStr = some answerStr →
       jsonParse answerStr = none →
       extractFromFinalStep (parseNestedTextField m) = none) := by
  refine ⟨?_, ?_, ?_, ?_, ?_, ?_, ?_⟩
  · intro s
    unfold parseSseEvent
    cases h : jsonParse s with
    | none => rfl
    | some v => cases v <;> rfl
  · intro s e he
    unfold parseSseEvent at he
    cases h : jsonParse s with
    | none =>
      rw [h] at he
      simp only [Except.error.injEq] at he
      exact he.symm
    | some v =>
      rw [h] at he
      cases v with
      | obj m => simp at he
      | null =>
        simp only [Except.error.injEq] at he
        exact he.symm
      | bool b =>
        simp only [Except.error.injEq] at he
        exact he.symm
      | num a b =>
        simp only [Except.error.injEq] at he
        exact he.symm
      | str s' =>
        simp only [Except.error.injEq] at he
        exact he.symm
      | arr l =>
        simp only [Except.error.injEq] at he
        exact he.symm
  · intro s m h1 h2
    rw [parseSseEvent_obj h1, extractAnswerAndWebResults_none h2,
      parseNestedTextField_other m (by decide)]
  · intro m ts h1 h2
    rw [parseNestedTextField_parse_fail h1 h2]
    exact extractFromFinalStep_not_array h1 rfl
  · intro m ts v h1 h2 hv
    rw [parseNestedTextField_parse h1 h2]
    exact extractFromFinalStep_not_array (mapGet_objInsert_self m "text" v) hv
  · intro m ts steps h1 h2 hf
    rw [parseNestedTextField_parse h1 h2]
    exact extractFromFinalStep_no_final (mapGet_objInsert_self m "text" (.arr steps)) hf
  · intro m ts steps finalStep stepContent answerStr h1 h2 hfind hcontent hastr hfail
    rw [parseNestedTextField_parse h1 h2]
    exact extractFromFinalStep_inner_parse_fail
      (mapGet_objInsert_self m "text" (.arr steps)) hfind hcontent hastr hfail

theorem claim6_witness :
    ((parseSseEvent "not json").isOk = isObjOption (jsonParse "not json")) ∧
    (extractFromFinalStep
        (parseNestedTextField [("text", .str exStepsNoFinal), ("answer", .str "Top")]) =
      none) ∧
    (parseSseEvent exPayloadFallback =
      .ok ⟨(mapGet [("text", .str exStepsNoFinal), ("answer", .str "Top")] "answer").bind
          JsonValue.asStr, [],
        extractString
          (parseNestedTextField [("text", .str exStepsNoFinal), ("answer", .str "Top")])
          "backend_uuid",
        extractStringArray
          (parseNestedTextField [("text", .str exStepsNoFinal), ("answer", .str "Top")])
          "attachments",
        buildRawMap
          (parseNestedTextField [("text", .str exStepsNoFinal), ("answer", .str "Top")])⟩) :=
  ⟨claim6_top_level_error_only.1 "not json",
    claim6_top_level_error_only.2.2.2.2.2.1
      [("text", .str exStepsNoFinal), ("answer", .str "Top")] exStepsNoFinal
      [exStepSearch] rfl rfl rfl,
    claim6_top_level_error_only.2.2.1 exPayloadFallback
      [("text", .str exStepsNoFinal), ("answer", .str "Top")] rfl rfl⟩

/-- A complete message frame whose payload is not valid JSON. -/
def exBadJsonFrame : List Nat := strBytes "event: message\r\ndata: notjson\r\n\r\n"

/-- Claim C7: `Client::search` drains the item sequence fully and keeps only
the last successfully decoded event — the response carries that event's
answer and web_results and a FollowUpContext holding its backend_uuid and
attachments (first conjunct; in particular a later event with a null answer
overwrites an earlier non-null one, fourth conjunct) — and a stream that
produced zero events fails with `UnexpectedEndOfStream` rather than
succeeding with an empty answer (second conjunct; third conjunct: a byte
stream that terminates immediately after the end_of_stream frame). -/
theorem claim7_last_event_wins :
    (∀ (evs : List SearchEvent) (e : SearchEvent),
       search (evs.map Except.ok ++ [Except.ok e]) =
         .ok ⟨e.answer, e.web_results, ⟨e.backend_uuid, e.attachments⟩,
           searchEventToJson e⟩) ∧
    search [] = .error .unexpectedEndOfStream ∧
    search (sseDrain [ByteChunk.ok exEndFrame]) = .error .unexpectedEndOfStream ∧
    search [Except.ok ⟨some "x", [], none, [], []⟩,
        Except.ok ⟨none, [], some "b", ["a"], []⟩] =
      .ok ⟨none, [], ⟨some "b", ["a"]⟩,
        searchEventToJson ⟨none, [], some "b", ["a"], []⟩⟩ := by
  refine ⟨?_, rfl, rfl, rfl⟩
  intro evs e
  unfold search
  rw [searchLoop_append_last evs none e]
  rfl

/-- Claim C8, as stated, is false on the code: when a request carries both
attached files and a (mode, model) pair outside the legal table, and the
client has credentials, the file-upload network leg runs before
`InvalidModelForMode` is raised — the trace below contains an upload call,
yet the submission fails with the model/mode validation error. -/
theorem claim8_counterexample :
    searchStream true exUploadOk "u1" "u2"
        ⟨"q", .auto, some .sonar, [.web], [.text "a.txt" "hi"], "en-US", none, false⟩ =
      ([.upload "a.txt"], .error (.invalidModelForMode "sonar" "auto")) ∧
    ([NetCall.upload "a.txt"] : List NetCall) ≠ [] := by
  exact ⟨rfl, by decide⟩

theorem uploadFiles_all_upload :
    ∀ (upload : UploadFile → Except Error String) (fs : List UploadFile),
      ((uploadFiles upload fs).1).all NetCall.notAsk = true := by
  intro upload fs
  induction fs with
  | nil => rfl
  | cons f rest ih =>
    simp only [uploadFiles]
    cases upload f with
    | error e => rfl
    | ok url => simpa [NetCall.notAsk] using ih

/-- Claim C8 (amended): `FileUploadRequiresAuth` is raised before any
network call — a request with attached files on a client without
authentication cookies fails with an empty network trace (first conjunct).
`InvalidModelForMode`, carrying the offending model and mode, is raised
before the main-query HTTP exchange, and when the request has no attached
files it too is raised before any network call (second conjunct); in
general every validation or upload failure leaves a trace containing no
main-query POST (third conjunct) — but for a request with files and
credentials the upload legs do run before the model/mode check
(`claim8_counterexample`). -/
theorem claim8_validation_fail_fast :
    (∀ (upload : UploadFile → Except Error String) (u1 u2 : String)
       (req : SearchRequest), req.files ≠ [] →
       searchStream false upload u1 u2 req = ([], .error .fileUploadRequiresAuth)) ∧
    (∀ (hc : Bool) (upload : UploadFile → Except Error String) (u1 u2 : String)
       (req : SearchRequest), req.files = [] →
       model_preference req.mode.asStr (req.model.map Model.asStr) = none →
       searchStream hc upload u1 u2 req =
         ([], .error (.invalidModelForMode
           ((req.model.map Model.asStr).getD "default") req.mode.asStr))) ∧
    (∀ (hc : Bool) (upload : UploadFile → Except Error String) (u1 u2 : String)
       (req : SearchRequest) (e : Error),
       (searchStream hc upload u1 u2 req).2 = .error e →
       ((searchStream hc upload u1 u2 req).1).all NetCall.notAsk = true) := by
  refine ⟨?_, ?_, ?_⟩
  · intro upload u1 u2 req hfiles
    unfold searchStream validateRequest
    rw [if_pos (by simp [List.isEmpty_iff, hfiles])]
  · intro hc upload u1 u2 req hfiles hmodel
    unfold searchStream validateRequest
    rw [if_neg (by simp [List.isEmpty_iff, hfiles]), hfiles]
    simp only [uploadFiles]
    rw [hmodel]
  · intro hc upload u1 u2 req e herr
    unfold searchStream at herr ⊢
    cases hv : validateRequest hc req with
    | error e0 => rfl
    | ok u =>
      rw [hv] at herr
      cases hup : uploadFiles upload req.files with
      | mk uploadCalls r =>
        rw [hup] at herr
        have hcalls : ((uploadFiles upload req.files).1).all NetCall.notAsk = true :=
          uploadFiles_all_upload upload req.files
        rw [hup] at hcalls
        cases r with
        | error e1 => exact hcalls
        | ok urls =>
          cases hm : model_preference req.mode.asStr (req.model.map Model.asStr) with
          | none => exact hcalls
          | some pref =>
            rw [hm] at herr
            simp at herr

theorem claim8_witness :
    searchStream false exUploadOk "u1" "u2"
        ⟨"q", .auto, none, [.web], [.text "a.txt" "hi"], "en-US", none, false⟩ =
      ([], .error .fileUploadRequiresAuth) ∧
    searchStream true exUploadOk "u1" "u2"
        ⟨"q", .auto, some .sonar, [.web], [], "en-US", none, false⟩ =
      ([], .error (.invalidModelForMode "sonar" "auto")) ∧
    ((searchStream true exUploadOk "u1" "u2"
        ⟨"q", .auto, some .sonar, [.web], [.text "a.txt" "hi"], "en-US", none, false⟩).1).all
      NetCall.notAsk = true :=
  ⟨claim8_validation_fail_fast.1 exUploadOk "u1" "u2"
      ⟨"q", .auto, none, [.web], [.text "a.txt" "hi"], "en-US", none, false⟩ (by decide),
    claim8_validation_fail_fast.2.1 true exUploadOk "u1" "u2"
      ⟨"q", .auto, some .sonar, [.web], [], "en-US", none, false⟩ rfl (by decide),
    claim8_validation_fail_fast.2.2 true exUploadOk "u1" "u2"
      ⟨"q", .auto, some .sonar, [.web], [.text "a.txt" "hi"], "en-US", none, false⟩
      (.invalidModelForMode "sonar" "auto") rfl⟩

/-- Claim C9, as stated, is false on the code: non-empty sources is not
enforced.  A caller-constructed request whose sources list is empty (every
`SearchRequest` field is public, and the `sources` builder accepts any list)
is accepted by submission and produces an empty `sources` array in the wire
payload. -/
theorem claim9_counterexample :
    (searchStream true exUploadOk "u1" "u2"
        ⟨"q", .auto, none, [], [], "en-US", none, false⟩).2 =
      .ok ⟨"q", ⟨[], "u1", "u2", false, "en-US", none, "concise", "turbo",
        "default", [], "2.18"⟩⟩ ∧
    (⟨[], "u1", "u2", false, "en-US", none, "concise", "turbo",
        "default", [], "2.18"⟩ : AskParams).sources = [] := ⟨rfl, rfl⟩

/-- Claim C9 (amended): a `SearchRequest` built by `SearchRequest::new`
starts with the non-empty source set `[web]` (first conjunct), and
submission copies the request's sources verbatim into the wire payload
(second conjunct) — so every accepted request whose sources list is
non-empty yields a non-empty wire sources list; but non-emptiness is not
enforced at submission, and a request with an empty sources list is
accepted (`claim9_counterexample`). -/
theorem claim9_sources_by_construction :
    (∀ q : String, (SearchRequest.new q).sources = [Source.web]) ∧
    (∀ (hc : Bool) (upload : UploadFile → Except Error String) (u1 u2 : String)
       (req : SearchRequest) (p : AskPayload),
       (searchStream hc upload u1 u2 req).2 = .ok p →
       p.params.sources = req.sources.map Source.asStr) := by
  refine ⟨fun q => rfl, ?_⟩
  intro hc upload u1 u2 req p hp
  unfold searchStream at hp
  cases hv : validateRequest hc req with
  | error e0 =>
    rw [hv] at hp
    simp at hp
  | ok u =>
    rw [hv] at hp
    cases hup : uploadFiles upload req.files with
    | mk uploadCalls r =>
      rw [hup] at hp
      cases r with
      | error e1 => simp at hp
      | ok urls =>
        cases hm : model_preference req.mode.asStr (req.model.map Model.asStr) with
        | none =>
          rw [hm] at hp
          simp at hp
        | some pref =>
          rw [hm] at hp
          have hp' := Except.ok.inj (show Except.ok _ = Except.ok p from hp)
          rw [← hp']

theorem claim9_witness :
    (SearchRequest.new "q").sources = [Source.web] ∧
    (⟨["https://example.com/upload"], "u1", "u2", false, "en-US", none,
        "concise", "turbo", "default", ["web"], "2.18"⟩ : AskParams).sources =
      (SearchRequest.new "q").sources.map Source.asStr :=
  ⟨claim9_sources_by_construction.1 "q",
    (claim9_sources_by_construction.2 true exUploadOk "u1" "u2"
      ⟨"q", .auto, none, [.web], [], "en-US", none, false⟩
      ⟨"q", ⟨[], "u1", "u2", false, "en-US", none, "concise", "turbo",
        "default", ["web"], "2.18"⟩⟩ rfl).symm ▸ rfl⟩

/-- Claim C10: if any item of the event stream is an error, `Client::search`
returns that error immediately — every previously decoded event is
discarded, no `SearchResponse` is produced, and later items are never
reflected in the result (first conjunct, for the first error of the
sequence).  The decoder produces exactly such error items for a frame whose
payload is not valid UTF-8 (second conjunct), a frame whose top-level JSON
fails to parse (third conjunct), and a transport error arriving mid-stream
(fourth conjunct, after one good frame). -/
theorem claim10_first_error_aborts :
    (∀ (pre : List SearchEvent) (er : Error) (post : List (Except Error SearchEvent)),
       search (pre.map Except.ok ++ Except.error er :: post) = .error er) ∧
    search (sseDrain [ByteChunk.ok exBadUtf8Frame]) = .error .invalidUtf8 ∧
    search (sseDrain [ByteChunk.ok exBadJsonFrame]) = .error .json ∧
    search (sseDrain [ByteChunk.ok exMsgParis, ByteChunk.err 7]) = .error (.http 7) := by
  refine ⟨?_, rfl, rfl, rfl⟩
  intro pre er post
  unfold search
  rw [searchLoop_first_error pre none er post]

end PWA
